import Mathlib

/-!
Verification development for the Cubiquity-style sparse voxel DAG volume
store found in src/structures/voxeldag/storage copy.rs.

The data model is embedded shallowly:
  * machine integers are modelled as Nat, with explicit mod 2^32 where the
    source relies on u32 wrap-around (the merge relocation offset);
  * the node pool (NodeStore) is modelled as an association list together
    with a fixed capacity; reading an index that was never written yields
    the all-zero node, matching a value-initialized C++ vector;
  * C++ exceptions (out of space in NodeDAG::insert) are modelled by
    Option: none means the operation threw;
  * assert statements are compiled out (NDEBUG semantics); where a claim
    depends on an assert we state the asserted property explicitly.

All definitions are translated directly from the source unless their doc
comment says otherwise.
-/

set_option maxHeartbeats 1000000

namespace Cubiquity

/-- MaterialId is u16; MaterialCount = 2^16. -/
def MaterialCount : Nat := 65536

/-- VolumeSideLength = 2^32; the root of the octree has height 32. -/
def rootHeight : Nat := 32

/-- isMaterialNode: a node index below MaterialCount is a material sentinel. -/
def isMaterialNode (nodeIndex : Nat) : Bool := nodeIndex < MaterialCount

/-- Node = std::array of 8 child indices (u32 each). -/
structure Node where
  c0 : Nat
  c1 : Nat
  c2 : Nat
  c3 : Nat
  c4 : Nat
  c5 : Nat
  c6 : Nat
  c7 : Nat
deriving DecidableEq, Repr

/-- Child slot access, slot id in 0..7 (ids 8 and above never occur). -/
def Node.get (n : Node) (k : Nat) : Nat :=
  if k = 0 then n.c0 else if k = 1 then n.c1 else if k = 2 then n.c2 else if k = 3 then n.c3
  else if k = 4 then n.c4 else if k = 5 then n.c5 else if k = 6 then n.c6 else n.c7

/-- Overwrite one child slot. -/
def Node.set (n : Node) (k : Nat) (v : Nat) : Node :=
  if k = 0 then { n with c0 := v } else if k = 1 then { n with c1 := v }
  else if k = 2 then { n with c2 := v } else if k = 3 then { n with c3 := v }
  else if k = 4 then { n with c4 := v } else if k = 5 then { n with c5 := v }
  else if k = 6 then { n with c6 := v } else { n with c7 := v }

/-- makeNode(value): a node whose 8 children all hold the same index. -/
def makeNode (value : Nat) : Node := ⟨value, value, value, value, value, value, value, value⟩

/-- NodeStore: the single backing array of nodes.  mData is the map from
index to written node (association list, newest write first); size is the
fixed capacity of the array, so editNodesEnd = size. -/
structure NodeStore where
  mData : List (Nat × Node)
  size : Nat
deriving DecidableEq, Repr

/-- Array read; an index that was never written reads as the all-zero node
(value-initialized storage). -/
def NodeStore.getNode (st : NodeStore) (index : Nat) : Node :=
  (st.mData.lookup index).getD (makeNode 0)

/-- NodeStore::setNode (the asserts are compiled out). -/
def NodeStore.setNode (st : NodeStore) (index : Nat) (newNode : Node) : NodeStore :=
  { st with mData := (index, newNode) :: st.mData }

/-- NodeStore::setNodeChild. -/
def NodeStore.setNodeChild (st : NodeStore) (nodeIndex childId newChildIndex : Nat) : NodeStore :=
  st.setNode nodeIndex ((st.getNode nodeIndex).set childId newChildIndex)

/-- NodeDAG: backing store plus the two region cursors. -/
structure NodeDAG where
  mNodes : NodeStore
  mBakedNodesEnd : Nat
  mEditNodesBegin : Nat
deriving DecidableEq, Repr

def NodeDAG.bakedNodesBegin (_ : NodeDAG) : Nat := MaterialCount
def NodeDAG.bakedNodesEnd (dag : NodeDAG) : Nat := dag.mBakedNodesEnd
def NodeDAG.editNodesBegin (dag : NodeDAG) : Nat := dag.mEditNodesBegin
def NodeDAG.editNodesEnd (dag : NodeDAG) : Nat := dag.mNodes.size

def NodeDAG.isBakedNode (dag : NodeDAG) (index : Nat) : Bool :=
  dag.bakedNodesBegin ≤ index && index < dag.bakedNodesEnd

def NodeDAG.isEditNode (dag : NodeDAG) (index : Nat) : Bool :=
  dag.editNodesBegin ≤ index && index < dag.editNodesEnd

/-- Read a node out of the DAG (operator[]). -/
def NodeDAG.getNode (dag : NodeDAG) (index : Nat) : Node := dag.mNodes.getNode index

/-- NodeDAG::isPrunable: all 8 children equal and the common value is a
material sentinel. -/
def NodeDAG.isPrunable (node : Node) : Bool :=
  isMaterialNode node.c0 && (node.c1 == node.c0) && (node.c2 == node.c0) &&
    (node.c3 == node.c0) && (node.c4 == node.c0) && (node.c5 == node.c0) &&
    (node.c6 == node.c0) && (node.c7 == node.c0)

/-- NodeDAG::insert: allocate one edit node, growing the edit region
downward.  The out-of-space throw is modelled as none. -/
def NodeDAG.insert (dag : NodeDAG) (node : Node) : Option (NodeDAG × Nat) :=
  if dag.mEditNodesBegin > dag.bakedNodesEnd then
    let index := dag.mEditNodesBegin - 1
    some ({ dag with mEditNodesBegin := index, mNodes := dag.mNodes.setNode index node }, index)
  else
    none

/-- NodeDAG::updateNodeChild: in-place update of an unshared edit node, or
copy-on-write otherwise; collapses nodes that become prunable.  Returns the
index now denoting the updated subtree, or none if insert threw. -/
def NodeDAG.updateNodeChild (dag : NodeDAG) (nodeIndex childId newChildNodeIndex : Nat)
    (forceCopy : Bool) : Option (NodeDAG × Nat) :=
  if dag.isEditNode nodeIndex && !forceCopy then
    let st := dag.mNodes.setNodeChild nodeIndex childId newChildNodeIndex
    let dag1 := { dag with mNodes := st }
    some (dag1, if NodeDAG.isPrunable (st.getNode nodeIndex) then newChildNodeIndex else nodeIndex)
  else
    let base := if isMaterialNode nodeIndex then makeNode nodeIndex else dag.getNode nodeIndex
    let newNode := base.set childId newChildNodeIndex
    if NodeDAG.isPrunable newNode then some (dag, newChildNodeIndex)
    else dag.insert newNode

/-- Volume: a NodeDAG plus the linear root history. -/
structure Volume where
  mDAG : NodeDAG
  mTrackEdits : Bool
  mRootNodeIndices : List Nat
  mCurrentRoot : Nat
deriving DecidableEq, Repr

/-- Volume::rootNodeIndex (in-bounds access is assumed by the source;
out-of-range reads default to 0). -/
def Volume.rootNodeIndex (v : Volume) : Nat := v.mRootNodeIndices.getD v.mCurrentRoot 0

/-- std::vector::resize(n) when growing: pad with value-initialized (0)
entries. -/
def padTo (l : List Nat) (n : Nat) : List Nat := l ++ List.replicate (n - l.length) 0

/-- Volume::setRootNodeIndex.  When tracking edits: advance the cursor,
grow the history if needed, and write the new root at the cursor (the
source does NOT truncate entries beyond the cursor).  The assert that the
new root differs from the current one is compiled out. -/
def Volume.setRootNodeIndex (v : Volume) (newRootNodeIndex : Nat) : Volume :=
  if v.mTrackEdits then
    let cur := v.mCurrentRoot + 1
    let roots := if cur ≥ v.mRootNodeIndices.length then padTo v.mRootNodeIndices (cur + 1)
      else v.mRootNodeIndices
    { v with mCurrentRoot := cur, mRootNodeIndices := roots.set cur newRootNodeIndex }
  else
    { v with mRootNodeIndices := v.mRootNodeIndices.set v.mCurrentRoot newRootNodeIndex }

/-- Volume::fill. -/
def Volume.fill (v : Volume) (matId : Nat) : Volume := v.setRootNodeIndex matId

/-- Volume::setTrackEdits. -/
def Volume.setTrackEdits (v : Volume) (trackEdits : Bool) : Volume :=
  let v := { v with mTrackEdits := trackEdits }
  if !trackEdits then
    { v with mRootNodeIndices := [v.mRootNodeIndices.getD v.mCurrentRoot 0], mCurrentRoot := 0 }
  else v

/-- Volume::undo: returns (success, new state). -/
def Volume.undo (v : Volume) : Bool × Volume :=
  if v.mCurrentRoot > 0 then (true, { v with mCurrentRoot := v.mCurrentRoot - 1 })
  else (false, v)

/-- Volume::redo: returns (success, new state). -/
def Volume.redo (v : Volume) : Bool × Volume :=
  if v.mCurrentRoot < v.mRootNodeIndices.length - 1 then
    (true, { v with mCurrentRoot := v.mCurrentRoot + 1 })
  else (false, v)

/-- Modelled from the spec: the Volume constructor.  The source initializes
mRootNodeIndices to one entry (value 0) and mCurrentRoot to 0; the two
(mutually contradictory) Default impls for the NodeDAG cursors in the
source are garbled, so the edit cursor follows the spec: the edit region is
empty at the top of the backing array (editNodesBegin = editNodesEnd =
capacity), and the baked region is empty (bakedNodesEnd = MaterialCount).
The backing-array capacity is a parameter. -/
def Volume.fresh (capacity : Nat) : Volume :=
  { mDAG := { mNodes := { mData := [], size := capacity },
              mBakedNodesEnd := MaterialCount, mEditNodesBegin := capacity },
    mTrackEdits := false, mRootNodeIndices := [0], mCurrentRoot := 0 }

/-! ## Coordinate mapping and query -/

/-- static_cast of a signed 32-bit coordinate to u32 followed by XOR with
1 << 31: flipping the top bit is addition of 2^31 mod 2^32. -/
def signedToU (x : Int) : Nat := ((x + 2147483648).emod 4294967296).toNat

/-- Bit k of an unsigned coordinate. -/
def bitAt (u k : Nat) : Nat := u / 2 ^ k % 2

/-- childId = childZ << 2 | childY << 1 | childX, selecting by bit
childHeight of each unsigned coordinate. -/
def childIdAt (ux uy uz childHeight : Nat) : Nat :=
  4 * bitAt uz childHeight + 2 * bitAt uy childHeight + bitAt ux childHeight

/-- The descent loop of Volume::voxel, from a given start node and height.
At height 0 the index is cast to MaterialId (mod 2^16). -/
def voxelFrom (dag : NodeDAG) (ux uy uz : Nat) : Nat → Nat → Nat
  | 0, nodeIndex => nodeIndex % MaterialCount
  | h + 1, nodeIndex =>
    if isMaterialNode nodeIndex then nodeIndex
    else voxelFrom dag ux uy uz h ((dag.getNode nodeIndex).get (childIdAt ux uy uz h))

/-- Volume::voxel. -/
def Volume.voxel (v : Volume) (x y z : Int) : Nat :=
  voxelFrom v.mDAG (signedToU x) (signedToU y) (signedToU z) rootHeight v.rootNodeIndex

/-- The list of non-material node indices visited by the voxel descent;
used to state well-formedness of a state. -/
def pathList (dag : NodeDAG) (ux uy uz : Nat) : Nat → Nat → List Nat
  | 0, _ => []
  | h + 1, nodeIndex =>
    if isMaterialNode nodeIndex then []
    else nodeIndex ::
      pathList dag ux uy uz h ((dag.getNode nodeIndex).get (childIdAt ux uy uz h))

/-! ## Point edit, recursive form -/

/-- The recursive helper Volume::setVoxelRecursive(ux,uy,uz,matId,nodeIndex,
nodeHeight).  Structural recursion on the height; the source asserts
nodeHeight > 0, so the height-0 equation is never reached (it returns the
node unchanged).  none models the out-of-space throw. -/
def editRecGo (ux uy uz matId : Nat) (forceCopy : Bool) :
    Nat → NodeDAG → Nat → Option (NodeDAG × Nat)
  | 0, dag, nodeIndex => some (dag, nodeIndex)
  | h + 1, dag, nodeIndex =>
    let childId := childIdAt ux uy uz h
    let childNodeIndex :=
      if isMaterialNode nodeIndex then nodeIndex else (dag.getNode nodeIndex).get childId
    if childNodeIndex = matId then some (dag, nodeIndex)
    else if h + 1 > 1 then
      match editRecGo ux uy uz matId forceCopy h dag childNodeIndex with
      | none => none
      | some (dag1, newChildNodeIndex) =>
        if newChildNodeIndex = childNodeIndex then some (dag1, nodeIndex)
        else dag1.updateNodeChild nodeIndex childId newChildNodeIndex forceCopy
    else dag.updateNodeChild nodeIndex childId matId forceCopy

/-- The public wrapper Volume::setVoxelRecursive(x,y,z,matId): maps the
coordinates to unsigned space, runs the recursion from the current root at
the root height and unconditionally records the returned root. -/
def Volume.setVoxelRecursive (v : Volume) (x y z : Int) (matId : Nat) : Option Volume :=
  match editRecGo (signedToU x) (signedToU y) (signedToU z) matId v.mTrackEdits
      rootHeight v.mDAG v.rootNodeIndex with
  | none => none
  | some (dag1, newRootNodeIndex) =>
    some (Volume.setRootNodeIndex { v with mDAG := dag1 } newRootNodeIndex)

/-! ## Point edit, iterative form -/

/-- One stack entry of the iterative Volume::setVoxel. -/
structure NodeState where
  mIndex : Nat
  mProcessedNode : Bool
deriving DecidableEq, Repr

/-- Pointwise stack update. -/
def upd (s : Nat → NodeState) (k : Nat) (v : NodeState) : Nat → NodeState :=
  fun j => if j = k then v else s j

/-- Outcome of the iterative edit loop. -/
inductive SvOut where
  /-- the early return taken when the voxel already holds matId -/
  | early : SvOut
  /-- the loop broke out; final DAG and the root recorded on the stack -/
  | finished : NodeDAG → Nat → SvOut
  /-- NodeDAG::insert threw out-of-space -/
  | nospace : SvOut
deriving DecidableEq

/-- The while(true) loop of the iterative Volume::setVoxel, fuel-indexed
(none = fuel ran out; the loop performs at most 2*rootHeight+1 iterations).
Each iteration handles the stack frame at the current height: the
unprocessed phase descends, the processed phase updates the node from its
child frame and ascends, breaking above rootHeight. -/
def svLoop (ux uy uz matId : Nat) (forceCopy : Bool) :
    Nat → NodeDAG → (Nat → NodeState) → Nat → Option SvOut
  | 0, _, _, _ => none
  | fuel + 1, dag, s, nodeHeight =>
    let childId := childIdAt ux uy uz (nodeHeight - 1)
    let nodeState := s nodeHeight
    if nodeState.mProcessedNode = false then
      let childNodeIndex :=
        if isMaterialNode nodeState.mIndex then nodeState.mIndex
        else (dag.getNode nodeState.mIndex).get childId
      if childNodeIndex = matId then some .early
      else if nodeHeight ≥ 2 then
        svLoop ux uy uz matId forceCopy fuel dag
          (upd (upd s (nodeHeight - 1) ⟨childNodeIndex, false⟩) nodeHeight
            ⟨nodeState.mIndex, true⟩)
          (nodeHeight - 1)
      else
        svLoop ux uy uz matId forceCopy fuel dag
          (upd s nodeHeight ⟨nodeState.mIndex, true⟩) nodeHeight
    else
      let step : Option (NodeDAG × Nat) :=
        if nodeHeight > 1 then
          let childState := s (nodeHeight - 1)
          if (dag.getNode nodeState.mIndex).get childId ≠ childState.mIndex then
            dag.updateNodeChild nodeState.mIndex childId childState.mIndex forceCopy
          else some (dag, nodeState.mIndex)
        else dag.updateNodeChild nodeState.mIndex childId matId forceCopy
      match step with
      | none => some .nospace
      | some (dag1, newIndex) =>
        let s1 := upd s nodeHeight ⟨newIndex, true⟩
        if nodeHeight + 1 > rootHeight then some (.finished dag1 (s1 rootHeight).mIndex)
        else svLoop ux uy uz matId forceCopy fuel dag1 s1 (nodeHeight + 1)

/-- The iterative Volume::setVoxel(x,y,z,matId): run the loop from the
current root at the root height; on early return the volume is unchanged,
otherwise record the root left on the stack.  none models the out-of-space
throw. -/
def Volume.setVoxel (v : Volume) (x y z : Int) (matId : Nat) : Option Volume :=
  let s0 : Nat → NodeState := fun _ => ⟨0, false⟩
  match svLoop (signedToU x) (signedToU y) (signedToU z) matId v.mTrackEdits
      (2 * rootHeight + 2) v.mDAG (upd s0 rootHeight ⟨v.rootNodeIndex, false⟩) rootHeight with
  | none => none
  | some .early => some v
  | some .nospace => none
  | some (.finished dag1 newRootNodeIndex) =>
    some (Volume.setRootNodeIndex { v with mDAG := dag1 } newRootNodeIndex)

/-! Reasoning view of the iterative loop: the processing of one subtree as
a structural recursion, and the pure ascent that follows it.  The lemmas
below prove svLoop equal to these; they are not part of the embedding. -/

/-- Outcome of processing one subtree in the iterative edit. -/
inductive IterOut where
  | early : IterOut
  | ok : NodeDAG → Nat → IterOut
deriving DecidableEq

/-- The subtree phase of the iterative loop, as a recursion on height:
descend with the early-out, then update each node from its processed child,
comparing against the stored child slot (exactly what the loop does). -/
def editIterGo (ux uy uz matId : Nat) (forceCopy : Bool) :
    Nat → NodeDAG → Nat → Option IterOut
  | 0, dag, nodeIndex => some (.ok dag nodeIndex)
  | h + 1, dag, nodeIndex =>
    let childId := childIdAt ux uy uz h
    let childNodeIndex :=
      if isMaterialNode nodeIndex then nodeIndex else (dag.getNode nodeIndex).get childId
    if childNodeIndex = matId then some .early
    else if h + 1 ≥ 2 then
      match editIterGo ux uy uz matId forceCopy h dag childNodeIndex with
      | none => none
      | some .early => some .early
      | some (.ok dag1 newChildNodeIndex) =>
        if (dag1.getNode nodeIndex).get childId ≠ newChildNodeIndex then
          match dag1.updateNodeChild nodeIndex childId newChildNodeIndex forceCopy with
          | none => none
          | some (dag2, r) => some (.ok dag2 r)
        else some (.ok dag1 nodeIndex)
    else
      match dag.updateNodeChild nodeIndex childId matId forceCopy with
      | none => none
      | some (dag2, r) => some (.ok dag2 r)

/-- The ascent phase of the iterative loop above a finished subtree at
height h with result r: repeatedly update the parent frame from the
current result until the loop breaks above rootHeight. -/
def ascend (ux uy uz matId : Nat) (forceCopy : Bool) (s : Nat → NodeState) :
    NodeDAG → Nat → Nat → Option SvOut
  | dag, r, h =>
    if _hh : h ≥ rootHeight then some (.finished dag r)
    else
      let childId := childIdAt ux uy uz h
      let i := (s (h + 1)).mIndex
      let step : Option (NodeDAG × Nat) :=
        if h + 1 > 1 then
          if (dag.getNode i).get childId ≠ r then
            dag.updateNodeChild i childId r forceCopy
          else some (dag, i)
        else dag.updateNodeChild i childId matId forceCopy
      match step with
      | none => some .nospace
      | some (dag1, r1) => ascend ux uy uz matId forceCopy s dag1 r1 (h + 1)
  termination_by _ _ h => rootHeight - h

/-! ## Bake: merge and relocation -/

/-- u32 addition. -/
def add32 (a b : Nat) : Nat := (a + b) % 4294967296

/-- u32 subtraction. -/
def sub32 (a b : Nat) : Nat := (a + 4294967296 - b % 4294967296) % 4294967296

/-- NodeDAG::mergeNode: recursive hash-consing.  The map from canonical
node value to assigned index is an association list; canonical nodes are
packed downward from nextSpace.  Fuel bounds the recursion depth (the tree
height, at most 32 for any tree the editing operations build); none means
the fuel ran out. -/
def mergeNode (st : NodeStore) (map : List (Node × Nat)) (nextSpace : Nat) (nodeIndex : Nat) :
    Nat → Option (NodeStore × List (Node × Nat) × Nat × Nat)
  | 0 => none
  | fuel + 1 => do
    let oldNode := st.getNode nodeIndex
    let step : NodeStore → List (Node × Nat) → Nat → Nat →
        Option (NodeStore × List (Node × Nat) × Nat × Nat) := fun st map ns c =>
      if isMaterialNode c then some (st, map, ns, c)
      else mergeNode st map ns c fuel
    let (st, map, ns, n0) ← step st map nextSpace oldNode.c0
    let (st, map, ns, n1) ← step st map ns oldNode.c1
    let (st, map, ns, n2) ← step st map ns oldNode.c2
    let (st, map, ns, n3) ← step st map ns oldNode.c3
    let (st, map, ns, n4) ← step st map ns oldNode.c4
    let (st, map, ns, n5) ← step st map ns oldNode.c5
    let (st, map, ns, n6) ← step st map ns oldNode.c6
    let (st, map, ns, n7) ← step st map ns oldNode.c7
    let newNode : Node := ⟨n0, n1, n2, n3, n4, n5, n6, n7⟩
    match map.lookup newNode with
    | some existing => some (st, map, ns, existing)
    | none => some (st.setNode ns newNode, (newNode, ns) :: map, ns - 1, ns)

/-- The copy-relocation loop at the end of NodeDAG::merge: for each target
index in the baked region, fetch the canonical node from the scratch block
(u32 index arithmetic, which wraps) and shift its non-material children by
the constant offset. -/
def relocLoop (offset : Nat) : NodeStore → Nat → Nat → NodeStore
  | st, _, 0 => st
  | st, nodeIndex, count + 1 =>
    let node := st.getNode (sub32 nodeIndex offset)
    let adj : Nat → Nat := fun c => if c > MaterialCount - 1 then add32 c offset else c
    let node : Node := ⟨adj node.c0, adj node.c1, adj node.c2, adj node.c3,
      adj node.c4, adj node.c5, adj node.c6, adj node.c7⟩
    relocLoop offset (st.setNode nodeIndex node) (nodeIndex + 1) count

/-- NodeDAG::merge(index): canonicalize the tree under index into the baked
region.  A material root empties the baked region.  Never touches
mEditNodesBegin. -/
def NodeDAG.merge (dag : NodeDAG) (index : Nat) : Option NodeDAG :=
  let mergedEnd := dag.mEditNodesBegin
  let nextSpace := mergedEnd - 1
  if isMaterialNode index then
    some { dag with mBakedNodesEnd := dag.bakedNodesBegin }
  else
    match mergeNode dag.mNodes [] nextSpace index 64 with
    | none => none
    | some (st1, _, _, mergedRoot) =>
      let actualNodeCount := mergedEnd - mergedRoot
      let offset := sub32 dag.bakedNodesBegin mergedRoot
      let st2 := relocLoop offset st1 dag.bakedNodesBegin actualNodeCount
      some { dag with mNodes := st2, mBakedNodesEnd := dag.bakedNodesBegin + actualNodeCount }

/-- Volume::bake: merge the current root, then record bakedNodesBegin as
the new root. -/
def Volume.bake (v : Volume) : Option Volume :=
  match v.mDAG.merge v.rootNodeIndex with
  | none => none
  | some dag1 => some (Volume.setRootNodeIndex { v with mDAG := dag1 } dag1.bakedNodesBegin)

/-! ## Volume combine -/

/-- One octant step of the recursive Volume::addVolume body: resolve the
two effective children, skip equal materials and the transparent empty
material 0, fill from a material rhs child or recurse, and update the self
node when the child changed.  Octants are visited in childId order 0..7
(z outer, y middle, x inner). -/
def addVolumeRec (rhsDag : NodeDAG) (forceCopy : Bool) :
    Nat → NodeDAG → Nat → Nat → Option (NodeDAG × Nat)
  | 0, dag, _, nodeIndex => some (dag, nodeIndex)
  | h + 1, dag, rhsNodeIndex, nodeIndex => do
    let octant : NodeDAG → Nat → Nat → Option (NodeDAG × Nat) := fun dag nodeIndex childId =>
      let childNodeIndex :=
        if isMaterialNode nodeIndex then nodeIndex else (dag.getNode nodeIndex).get childId
      let rhsChildNodeIndex :=
        if isMaterialNode rhsNodeIndex then rhsNodeIndex
        else (rhsDag.getNode rhsNodeIndex).get childId
      if isMaterialNode childNodeIndex && isMaterialNode rhsChildNodeIndex &&
          childNodeIndex == rhsChildNodeIndex then
        some (dag, nodeIndex)
      else do
        let (dag, newChildNodeIndex) ←
          if rhsChildNodeIndex ≠ 0 then
            if isMaterialNode rhsChildNodeIndex then some (dag, rhsChildNodeIndex)
            else addVolumeRec rhsDag forceCopy h dag rhsChildNodeIndex childNodeIndex
          else some (dag, childNodeIndex)
        if childNodeIndex ≠ newChildNodeIndex then
          dag.updateNodeChild nodeIndex childId newChildNodeIndex forceCopy
        else some (dag, nodeIndex)
    let (dag, nodeIndex) ← octant dag nodeIndex 0
    let (dag, nodeIndex) ← octant dag nodeIndex 1
    let (dag, nodeIndex) ← octant dag nodeIndex 2
    let (dag, nodeIndex) ← octant dag nodeIndex 3
    let (dag, nodeIndex) ← octant dag nodeIndex 4
    let (dag, nodeIndex) ← octant dag nodeIndex 5
    let (dag, nodeIndex) ← octant dag nodeIndex 6
    let (dag, nodeIndex) ← octant dag nodeIndex 7
    some (dag, nodeIndex)

/-- The public Volume::addVolume wrapper: run the combine from both roots
at the root height and unconditionally record the returned root. -/
def Volume.addVolume (v : Volume) (rhsVolume : Volume) : Option Volume :=
  match addVolumeRec rhsVolume.mDAG v.mTrackEdits rootHeight v.mDAG
      rhsVolume.rootNodeIndex v.rootNodeIndex with
  | none => none
  | some (dag1, newRootNodeIndex) =>
    some (Volume.setRootNodeIndex { v with mDAG := dag1 } newRootNodeIndex)

/-! ## Basic store lemmas -/

theorem getNode_setNode_self (st : NodeStore) (i : Nat) (n : Node) :
    (st.setNode i n).getNode i = n := by
  simp [NodeStore.setNode, NodeStore.getNode, List.lookup]

theorem getNode_setNode_ne (st : NodeStore) (i : Nat) (n : Node) (j : Nat) (h : j ≠ i) :
    (st.setNode i n).getNode j = st.getNode j := by
  simp [NodeStore.setNode, NodeStore.getNode, List.lookup, beq_false_of_ne h]

theorem size_setNode (st : NodeStore) (i : Nat) (n : Node) :
    (st.setNode i n).size = st.size := rfl

/-! ## Claim C7: NodeDAG::insert -/

/-- C7.  NodeDAG::insert(node) succeeds iff editNodesBegin > bakedNodesEnd
on entry; on success it decrements editNodesBegin, writes the node at the
new editNodesBegin (leaving every other index and the other cursors
unchanged) and returns that index; otherwise it signals out-of-space
(modelled as none) without changing anything. -/
theorem insert_spec (dag : NodeDAG) (n : Node) :
    ((dag.insert n).isSome ↔ dag.mBakedNodesEnd < dag.mEditNodesBegin) ∧
    (∀ dag1 idx, dag.insert n = some (dag1, idx) →
      idx = dag.mEditNodesBegin - 1 ∧ dag1.mEditNodesBegin = dag.mEditNodesBegin - 1 ∧
      dag1.mNodes.getNode idx = n ∧ dag1.mBakedNodesEnd = dag.mBakedNodesEnd ∧
      dag1.mNodes.size = dag.mNodes.size ∧
      ∀ j, j ≠ idx → dag1.mNodes.getNode j = dag.mNodes.getNode j) ∧
    (¬ dag.mBakedNodesEnd < dag.mEditNodesBegin → dag.insert n = none) := by
  unfold NodeDAG.insert NodeDAG.bakedNodesEnd
  refine ⟨?_, ?_, ?_⟩
  · split
    · simp; omega
    · simp; omega
  · intro dag1 idx h
    split at h
    · simp only [Option.some.injEq, Prod.mk.injEq] at h
      obtain ⟨hd, hi⟩ := h
      subst hd hi
      refine ⟨rfl, rfl, getNode_setNode_self _ _ _, rfl, rfl, ?_⟩
      intro j hj
      exact getNode_setNode_ne _ _ _ _ hj
    · exact absurd h (by simp)
  · intro h
    split
    · omega
    · rfl

/-- C7 witness: insert on the fresh volume has space and succeeds. -/
theorem insert_spec_witness :
    (Volume.fresh 70000).mDAG.mBakedNodesEnd < (Volume.fresh 70000).mDAG.mEditNodesBegin ∧
      ((Volume.fresh 70000).mDAG.insert (makeNode 2)).isSome :=
  ⟨by decide, ((insert_spec (Volume.fresh 70000).mDAG (makeNode 2)).1).mpr (by decide)⟩

/-! ## Claim C10: undo and redo touch only the cursor -/

/-- C10.  undo() and redo() modify only the currentRoot cursor: whatever
they return, the NodeDAG (hence both region cursors and the node storage)
and the root history list are unchanged, so the voxel contents denoted by
every recorded root are unchanged. -/
theorem undo_redo_frame (v : Volume) :
    (v.undo).2.mDAG = v.mDAG ∧ (v.undo).2.mRootNodeIndices = v.mRootNodeIndices ∧
    (v.redo).2.mDAG = v.mDAG ∧ (v.redo).2.mRootNodeIndices = v.mRootNodeIndices ∧
    (∀ r ux uy uz h, voxelFrom (v.undo).2.mDAG ux uy uz h r = voxelFrom v.mDAG ux uy uz h r) ∧
    (∀ r ux uy uz h, voxelFrom (v.redo).2.mDAG ux uy uz h r = voxelFrom v.mDAG ux uy uz h r) := by
  unfold Volume.undo Volume.redo
  refine ⟨?_, ?_, ?_, ?_, ?_, ?_⟩ <;> split <;> simp

/-! ## Concrete volumes used by the counterexamples and code-bug runs -/

/-- A fresh volume with a generous backing capacity. -/
def exFresh : Volume := Volume.fresh 70000

/-- The fresh volume after setTrackEdits(true): edit tracking on. -/
def exTracked : Volume := exFresh.setTrackEdits true

/-! ## Claim C2: forward edits do not truncate the redo tail -/

/-- Two tracked edits, two undos, then a third edit. -/
def redoTailChain : Option Volume := do
  let a ← exTracked.setVoxel 0 0 0 1
  let b ← a.setVoxel 0 0 0 2
  let c := (b.undo).2
  let d := (c.undo).2
  d.setVoxel 0 0 0 3

/-- C2 (code bug).  After two tracked edits, two undos and a third edit,
setRootNodeIndex has NOT truncated the history: it still has 3 entries
while currentRoot is 1, and the next redo() returns true (stepping onto a
stale root).  The claim (and the source comment describing a linear
history) requires len = currentRoot + 1 and redo() = false. -/
theorem redo_tail_not_truncated :
    redoTailChain.map
        (fun v => (v.mRootNodeIndices.length, v.mCurrentRoot, (v.redo).1)) =
      some (3, 1, true) := by decide

/-! ## Claim C3: bake on a material root loses the contents -/

/-- fill(5) then bake(). -/
def bakeOfFill : Option Volume := (exFresh.fill 5).bake

/-- C3 (code bug).  Before bake, every voxel of fill(5) is 5; bake() on
this material root empties the baked region yet sets the root to
bakedNodesBegin = 65536, so voxel(0,0,0) afterwards reads the
never-written node there (all zeros in value-initialized storage; stale
memory in C++) and returns 0, not 5. -/
theorem bake_material_root_loses_contents :
    (exFresh.fill 5).voxel 0 0 0 = 5 ∧
      bakeOfFill.map (fun v => (v.voxel 0 0 0, v.rootNodeIndex, v.mDAG.mBakedNodesEnd)) =
        some (0, 65536, 65536) := by
  exact ⟨by decide, by decide⟩

/-! ## Claim C8: a prunable node reachable from the live root -/

/-- bake() of a fresh (all material 0) volume. -/
def bakeOfFresh : Option Volume := exFresh.bake

/-- C8 (code bug).  After bake() of a fresh volume the live root is 65536,
which is not a material sentinel, and the node stored there (never
written: all 8 children are material 0) is prunable — a prunable node
reachable from the live root, which the claim forbids. -/
theorem bake_reachable_prunable_root :
    bakeOfFresh.map
        (fun v => (v.rootNodeIndex, isMaterialNode v.rootNodeIndex,
          NodeDAG.isPrunable (v.mDAG.getNode v.rootNodeIndex))) =
      some (65536, false, true) := by decide

/-! ## Claim C9: addVolume of the all-zero volume is not a no-op when tracking -/

/-- addVolume of an all-zero rhs into a tracked, otherwise fresh volume. -/
def addZeroTracked : Option Volume := exTracked.addVolume exFresh

/-- C9 (code bug).  The all-zero rhs (root = material sentinel 0) changes
no voxel and no node, yet the wrapper unconditionally records the
unchanged root: with trackEdits on it pushes a duplicate history entry
(currentRoot 0 → 1, history [0] → [0, 0]), violating the source assert
that a root is never re-recorded; the claim says nothing changes. -/
theorem addVolume_zero_pushes_duplicate_root :
    exFresh.rootNodeIndex = 0 ∧ exTracked.mCurrentRoot = 0 ∧
      addZeroTracked.map (fun v => (v.mCurrentRoot, v.mRootNodeIndices)) =
        some (1, [0, 0]) := by
  exact ⟨by decide, by decide, by decide⟩

/-! ## Claim C4 counterexample: the two edit forms differ on a no-op edit -/

/-- C4 counterexample.  On a tracked volume whose voxel already holds the
requested material (matId 0 on a fresh volume), the iterative setVoxel
early-returns leaving the state unchanged, while setVoxelRecursive still
records the unchanged root, pushing a duplicate history entry: the two
implementations produce different states. -/
theorem setVoxelRecursive_ne_setVoxel_cex :
    (exTracked.setVoxel 0 0 0 0).map Volume.mCurrentRoot = some 0 ∧
      (exTracked.setVoxelRecursive 0 0 0 0).map Volume.mCurrentRoot = some 1 ∧
      exTracked.setVoxelRecursive 0 0 0 0 ≠ exTracked.setVoxel 0 0 0 0 := by
  exact ⟨by decide, by decide, by decide⟩

/-! ## Claim C6: bake does not return the edit nodes' space -/

/-- One edit (32 edit nodes) and then bake, on a volume with capacity
65600. -/
def bakeAfterEdit : Option Volume := ((Volume.fresh 65600).setVoxel 0 0 0 1).bind Volume.bake

/-- C6 counterexample.  After the edit, editNodesBegin is 65568; bake()
leaves it there while editNodesEnd is 65600, so the edit region is NOT
empty after bake (the claim asserts editNodesBegin == editNodesEnd), and
the 32 abandoned edit nodes at 65568..65599 are never returned to the
allocator. -/
theorem bake_edit_region_not_emptied_cex :
    bakeAfterEdit.map (fun v => (v.mDAG.mEditNodesBegin, v.mDAG.editNodesEnd)) =
        some (65568, 65600) ∧
      bakeAfterEdit.map (fun v => decide (v.mDAG.mEditNodesBegin = v.mDAG.editNodesEnd)) =
        some false := by
  exact ⟨by decide, by decide⟩

/-! ## Claim C6 amended: bake leaves the edit cursor where it was -/

theorem mergeNode_size : ∀ (fuel : Nat) (st : NodeStore) (map : List (Node × Nat)) (ns i : Nat)
    (out : NodeStore × List (Node × Nat) × Nat × Nat),
    mergeNode st map ns i fuel = some out → out.1.size = st.size := by
  intro fuel
  induction fuel with
  | zero => intro st map ns i out h; simp [mergeNode] at h
  | succ fuel ih =>
    intro st map ns i out h
    have hstep : ∀ (st : NodeStore) (map : List (Node × Nat)) (ns c : Nat)
        (o : NodeStore × List (Node × Nat) × Nat × Nat),
        (if isMaterialNode c then some (st, map, ns, c) else mergeNode st map ns c fuel) =
          some o → o.1.size = st.size := by
      intro st map ns c o ho
      split at ho
      · cases ho; rfl
      · exact ih st map ns c o ho
    simp only [mergeNode, bind, Option.bind_eq_some] at h
    obtain ⟨⟨s0, m0, n0, c0⟩, h0, h⟩ := h
    obtain ⟨⟨s1, m1, n1, c1⟩, h1, h⟩ := h
    obtain ⟨⟨s2, m2, n2, c2⟩, h2, h⟩ := h
    obtain ⟨⟨s3, m3, n3, c3⟩, h3, h⟩ := h
    obtain ⟨⟨s4, m4, n4, c4⟩, h4, h⟩ := h
    obtain ⟨⟨s5, m5, n5, c5⟩, h5, h⟩ := h
    obtain ⟨⟨s6, m6, n6, c6⟩, h6, h⟩ := h
    obtain ⟨⟨s7, m7, n7, c7⟩, h7, h⟩ := h
    have e0 := hstep _ _ _ _ _ h0
    have e1 := hstep _ _ _ _ _ h1
    have e2 := hstep _ _ _ _ _ h2
    have e3 := hstep _ _ _ _ _ h3
    have e4 := hstep _ _ _ _ _ h4
    have e5 := hstep _ _ _ _ _ h5
    have e6 := hstep _ _ _ _ _ h6
    have e7 := hstep _ _ _ _ _ h7
    simp only at e0 e1 e2 e3 e4 e5 e6 e7
    split at h <;> cases h <;> simp_all [size_setNode]

theorem relocLoop_size : ∀ (count : Nat) (offset : Nat) (st : NodeStore) (i : Nat),
    (relocLoop offset st i count).size = st.size := by
  intro count
  induction count with
  | zero => intro offset st i; rfl
  | succ count ih => intro offset st i; simp [relocLoop, ih, size_setNode]

/-- Volume::setRootNodeIndex never touches the DAG. -/
theorem setRootNodeIndex_mDAG (v : Volume) (r : Nat) :
    (v.setRootNodeIndex r).mDAG = v.mDAG := by
  unfold Volume.setRootNodeIndex; split <;> rfl

/-- C6 amended.  bake() abandons the pre-existing edit nodes but does not
return their space to the allocator: both editNodesBegin and editNodesEnd
are unchanged by bake(), and a subsequent successful insert allocates at
the pre-bake editNodesBegin − 1 — below the abandoned edit nodes, not in
their slots. -/
theorem bake_preserves_edit_cursor (v v1 : Volume) (h : v.bake = some v1) :
    v1.mDAG.mEditNodesBegin = v.mDAG.mEditNodesBegin ∧
    v1.mDAG.editNodesEnd = v.mDAG.editNodesEnd ∧
    (∀ n dag2 idx, v1.mDAG.insert n = some (dag2, idx) →
      idx = v.mDAG.mEditNodesBegin - 1) := by
  unfold Volume.bake at h
  split at h
  · exact absurd h (by simp)
  · rename_i dag1 hm
    simp only [Option.some.injEq] at h
    subst h
    have hdag : ∀ w : Volume, (Volume.setRootNodeIndex w dag1.bakedNodesBegin).mDAG = w.mDAG :=
      fun w => setRootNodeIndex_mDAG w _
    rw [hdag]
    have hkeep : dag1.mEditNodesBegin = v.mDAG.mEditNodesBegin ∧
        dag1.mNodes.size = v.mDAG.mNodes.size := by
      unfold NodeDAG.merge at hm
      split at hm
      · cases hm; exact ⟨rfl, rfl⟩
      · dsimp only at hm
        split at hm
        · exact absurd hm (by simp)
        · rename_i st1 map1 ns1 mr hmn
          cases hm
          refine ⟨rfl, ?_⟩
          simp only
          rw [relocLoop_size]
          exact mergeNode_size _ _ _ _ _ _ hmn
    refine ⟨hkeep.1, hkeep.2, ?_⟩
    intro n dag2 idx hins
    unfold NodeDAG.insert at hins
    split at hins
    · simp only [Option.some.injEq, Prod.mk.injEq] at hins
      rw [← hins.2, hkeep.1]
    · exact absurd hins (by simp)

/-- The concrete post-edit volume used to witness the bake lemmas. -/
def editedV : Volume := ((Volume.fresh 65600).setVoxel 0 0 0 1).getD exFresh

/-- C6 amended witness: on the concrete post-edit volume, bake preserves
editNodesBegin. -/
theorem bake_preserves_edit_cursor_witness :
    (editedV.bake.getD exFresh).mDAG.mEditNodesBegin = editedV.mDAG.mEditNodesBegin := by
  have h : editedV.bake = some (editedV.bake.getD exFresh) := by decide
  exact (bake_preserves_edit_cursor editedV (editedV.bake.getD exFresh) h).1

/-! ## Node slot lemmas -/

theorem Node.get_set_self (n : Node) (k v : Nat) (hk : k < 8) : (n.set k v).get k = v := by
  unfold Node.set Node.get
  split_ifs <;> first | rfl | omega

theorem Node.set_c0 (n : Node) (k v : Nat) : (n.set k v).c0 = if k = 0 then v else n.c0 := by
  unfold Node.set; split_ifs <;> first | rfl | omega

theorem Node.set_c1 (n : Node) (k v : Nat) : (n.set k v).c1 = if k = 1 then v else n.c1 := by
  unfold Node.set; split_ifs <;> first | rfl | omega

theorem Node.set_c2 (n : Node) (k v : Nat) : (n.set k v).c2 = if k = 2 then v else n.c2 := by
  unfold Node.set; split_ifs <;> first | rfl | omega

theorem Node.set_c3 (n : Node) (k v : Nat) : (n.set k v).c3 = if k = 3 then v else n.c3 := by
  unfold Node.set; split_ifs <;> first | rfl | omega

theorem Node.set_c4 (n : Node) (k v : Nat) : (n.set k v).c4 = if k = 4 then v else n.c4 := by
  unfold Node.set; split_ifs <;> first | rfl | omega

theorem Node.set_c5 (n : Node) (k v : Nat) : (n.set k v).c5 = if k = 5 then v else n.c5 := by
  unfold Node.set; split_ifs <;> first | rfl | omega

theorem Node.set_c6 (n : Node) (k v : Nat) : (n.set k v).c6 = if k = 6 then v else n.c6 := by
  unfold Node.set; split_ifs <;> first | rfl | omega

theorem Node.set_c7 (n : Node) (k v : Nat) : (n.set k v).c7 = if k < 7 then n.c7 else v := by
  unfold Node.set; split_ifs <;> first | rfl | omega

theorem Node.get_set_ne (n : Node) (k v j : Nat) (hk : k < 8) (hj2 : j < 8) (hj : j ≠ k) :
    (n.set k v).get j = n.get j := by
  unfold Node.get
  split_ifs <;>
    simp only [Node.set_c0, Node.set_c1, Node.set_c2, Node.set_c3, Node.set_c4,
      Node.set_c5, Node.set_c6, Node.set_c7] <;>
    split_ifs <;> first | rfl | omega

theorem makeNode_get (v k : Nat) : (makeNode v).get k = v := by
  unfold makeNode Node.get
  split_ifs <;> rfl

/-- A prunable node has a material child in slot 0 and all slots equal. -/
theorem isPrunable_all (n : Node) (h : NodeDAG.isPrunable n = true) :
    isMaterialNode n.c0 = true ∧ ∀ k, n.get k = n.c0 := by
  unfold NodeDAG.isPrunable at h
  simp only [Bool.and_eq_true, beq_iff_eq] at h
  obtain ⟨⟨⟨⟨⟨⟨⟨h0, h1⟩, h2⟩, h3⟩, h4⟩, h5⟩, h6⟩, h7⟩ := h
  refine ⟨h0, ?_⟩
  intro k
  unfold Node.get
  split_ifs <;> first | rfl | omega

theorem childIdAt_lt (ux uy uz h : Nat) : childIdAt ux uy uz h < 8 := by
  unfold childIdAt bitAt
  have hx := Nat.mod_lt (ux / 2 ^ h) (show 0 < 2 by norm_num)
  have hy := Nat.mod_lt (uy / 2 ^ h) (show 0 < 2 by norm_num)
  have hz := Nat.mod_lt (uz / 2 ^ h) (show 0 < 2 by norm_num)
  omega

/-! ## Well-formedness of a DAG state -/

/-- Region sanity of a NodeDAG: the cursors are ordered, and indices in
the material range hold no written node (material sentinels are never
allocated). -/
structure DagOK (dag : NodeDAG) : Prop where
  mat_le : MaterialCount ≤ dag.mBakedNodesEnd
  baked_le : dag.mBakedNodesEnd ≤ dag.mEditNodesBegin
  edit_le : dag.mEditNodesBegin ≤ dag.mNodes.size
  clean : ∀ j, isMaterialNode j = true → dag.getNode j = makeNode 0

/-- An index inside one of the two allocated regions. -/
def validIndex (dag : NodeDAG) (j : Nat) : Prop :=
  (MaterialCount ≤ j ∧ j < dag.mBakedNodesEnd) ∨
    (dag.mEditNodesBegin ≤ j ∧ j < dag.mNodes.size)

/-- Well-formedness of the descent path from node i at a given coordinate:
no index repeats and every visited node lives in an allocated region.
This is the invariant a state reachable by the public operations under
normal capacity satisfies on every coordinate. -/
def PathOK (dag : NodeDAG) (ux uy uz h i : Nat) : Prop :=
  (pathList dag ux uy uz h i).Nodup ∧ ∀ j ∈ pathList dag ux uy uz h i, validIndex dag j

/-! ## voxelFrom and pathList basics -/

theorem voxelFrom_material (dag : NodeDAG) (ux uy uz h i : Nat)
    (hi : isMaterialNode i = true) : voxelFrom dag ux uy uz h i = i := by
  cases h with
  | zero =>
    unfold voxelFrom
    unfold isMaterialNode at hi
    simp only [decide_eq_true_eq] at hi
    exact Nat.mod_eq_of_lt hi
  | succ h => unfold voxelFrom; simp [hi]

theorem pathList_material (dag : NodeDAG) (ux uy uz h i : Nat)
    (hi : isMaterialNode i = true) : pathList dag ux uy uz h i = [] := by
  cases h with
  | zero => rfl
  | succ h => unfold pathList; simp [hi]

theorem pathList_node (dag : NodeDAG) (ux uy uz h i : Nat)
    (hi : isMaterialNode i = false) :
    pathList dag ux uy uz (h + 1) i =
      i :: pathList dag ux uy uz h ((dag.getNode i).get (childIdAt ux uy uz h)) := by
  conv_lhs => rw [pathList]
  simp [hi]

theorem voxelFrom_node (dag : NodeDAG) (ux uy uz h i : Nat)
    (hi : isMaterialNode i = false) :
    voxelFrom dag ux uy uz (h + 1) i =
      voxelFrom dag ux uy uz h ((dag.getNode i).get (childIdAt ux uy uz h)) := by
  conv_lhs => rw [voxelFrom]
  simp [hi]

/-- Both the query result and the visited path depend only on the nodes
along the path: a DAG agreeing there gives the same answers. -/
theorem voxelFrom_congr (ux uy uz : Nat) :
    ∀ (h : Nat) (dag dag1 : NodeDAG) (i : Nat),
      (∀ j ∈ pathList dag ux uy uz h i, dag1.getNode j = dag.getNode j) →
      voxelFrom dag1 ux uy uz h i = voxelFrom dag ux uy uz h i ∧
        pathList dag1 ux uy uz h i = pathList dag ux uy uz h i := by
  intro h
  induction h with
  | zero => intro dag dag1 i _; exact ⟨rfl, rfl⟩
  | succ h ih =>
    intro dag dag1 i hagree
    by_cases hi : isMaterialNode i = true
    · rw [voxelFrom_material _ _ _ _ _ _ hi, voxelFrom_material _ _ _ _ _ _ hi,
        pathList_material _ _ _ _ _ _ hi, pathList_material _ _ _ _ _ _ hi]
      exact ⟨rfl, rfl⟩
    · have hi := eq_false_of_ne_true hi
      rw [pathList_node _ _ _ _ _ _ hi] at hagree
      have hhead : dag1.getNode i = dag.getNode i := hagree i (by simp)
      have htail := ih dag dag1 ((dag.getNode i).get (childIdAt ux uy uz h))
        (fun j hj => hagree j (by simp [hj]))
      rw [voxelFrom_node _ _ _ _ _ _ hi, voxelFrom_node _ _ _ _ _ _ hi,
        pathList_node _ _ _ _ _ _ hi, pathList_node _ _ _ _ _ _ hi, hhead]
      exact ⟨htail.1, by rw [htail.2]⟩

/-! ## Characterization of NodeDAG::updateNodeChild -/

theorem isMaterialNode_true_iff (i : Nat) : isMaterialNode i = true ↔ i < MaterialCount := by
  simp [isMaterialNode]

theorem isMaterialNode_false_iff (i : Nat) : isMaterialNode i = false ↔ MaterialCount ≤ i := by
  simp [isMaterialNode, Nat.not_lt]

theorem isEditNode_true_iff (dag : NodeDAG) (i : Nat) :
    dag.isEditNode i = true ↔ dag.mEditNodesBegin ≤ i ∧ i < dag.mNodes.size := by
  simp [NodeDAG.isEditNode, NodeDAG.editNodesBegin, NodeDAG.editNodesEnd]


/-- Everything the edit-path induction needs to know about one
updateNodeChild call on a region-sane DAG. -/
theorem updateNodeChild_spec (dag : NodeDAG) (i cid rc : Nat) (fc : Bool) (hcid : cid < 8)
    (hok : DagOK dag) (dag1 : NodeDAG) (r : Nat)
    (h : dag.updateNodeChild i cid rc fc = some (dag1, r)) :
    DagOK dag1 ∧
    dag1.mBakedNodesEnd = dag.mBakedNodesEnd ∧
    dag1.mNodes.size = dag.mNodes.size ∧
    dag1.mEditNodesBegin ≤ dag.mEditNodesBegin ∧
    (∀ j, j ≠ i → j < dag1.mEditNodesBegin → dag1.getNode j = dag.getNode j) ∧
    (∀ j, j ≠ i → dag.mEditNodesBegin ≤ j → dag1.getNode j = dag.getNode j) ∧
    (fc = true → ∀ j, j < dag1.mEditNodesBegin ∨ dag.mEditNodesBegin ≤ j →
      dag1.getNode j = dag.getNode j) ∧
    (isMaterialNode r = true → r = rc) ∧
    (isMaterialNode r = false → (dag1.getNode r).get cid = rc) ∧
    ((r = i ∧ dag.isEditNode i = true ∧ fc = false ∧
        dag1.mEditNodesBegin = dag.mEditNodesBegin) ∨
      (r = rc ∧ isMaterialNode rc = true ∧ dag1.mEditNodesBegin = dag.mEditNodesBegin) ∨
      (dag1.mEditNodesBegin = r ∧ r + 1 = dag.mEditNodesBegin ∧
        dag.mBakedNodesEnd ≤ r ∧ isMaterialNode r = false)) ∧
    (isMaterialNode i = true → rc ≠ i →
      dag1.mEditNodesBegin = r ∧ r + 1 = dag.mEditNodesBegin ∧
        dag.mBakedNodesEnd ≤ r ∧ isMaterialNode r = false) := by
  have hmatle := hok.mat_le
  have hble := hok.baked_le
  have hele := hok.edit_le
  unfold NodeDAG.updateNodeChild at h
  by_cases hip : (dag.isEditNode i && !fc) = true
  · -- in-place update of an unshared edit node
    rw [if_pos hip] at h
    dsimp only at h
    simp only [Option.some.injEq, Prod.mk.injEq] at h
    obtain ⟨hd, hr⟩ := h
    have hboth : dag.isEditNode i = true ∧ fc = false := by
      simp only [Bool.and_eq_true, Bool.not_eq_true'] at hip; exact hip
    have hi1 : dag.mEditNodesBegin ≤ i := ((isEditNode_true_iff dag i).mp hboth.1).1
    have hi2 : i < dag.mNodes.size := ((isEditNode_true_iff dag i).mp hboth.1).2
    have hinm : isMaterialNode i = false := by rw [isMaterialNode_false_iff]; omega
    have hstget : (dag.mNodes.setNodeChild i cid rc).getNode i = (dag.getNode i).set cid rc := by
      simp only [NodeStore.setNodeChild, NodeDAG.getNode]
      exact getNode_setNode_self _ _ _
    have hwrite : dag1.getNode i = (dag.getNode i).set cid rc := by
      rw [← hd]; exact hstget
    have hframe : ∀ j, j ≠ i → dag1.getNode j = dag.getNode j := by
      intro j hj
      rw [← hd]
      simp only [NodeDAG.getNode, NodeStore.setNodeChild]
      exact getNode_setNode_ne _ _ _ _ hj
    have hfields : dag1.mBakedNodesEnd = dag.mBakedNodesEnd ∧
        dag1.mNodes.size = dag.mNodes.size ∧
        dag1.mEditNodesBegin = dag.mEditNodesBegin := by rw [← hd]; exact ⟨rfl, rfl, rfl⟩
    have hok1 : DagOK dag1 := by
      refine ⟨by omega, by omega, by omega, ?_⟩
      intro j hjm
      have hji : j ≠ i := by rw [isMaterialNode_true_iff] at hjm; omega
      rw [hframe j hji]; exact hok.clean j hjm
    refine ⟨hok1, hfields.1, hfields.2.1, by omega, fun j hj _ => hframe j hj,
      fun j hj _ => hframe j hj, ?_, ?_, ?_, ?_, ?_⟩
    · intro hfc; rw [hfc] at hboth; exact absurd hboth.2 (by simp)
    · intro hmat
      by_cases hpr : NodeDAG.isPrunable ((dag.mNodes.setNodeChild i cid rc).getNode i) = true
      · rw [if_pos hpr] at hr; omega
      · rw [if_neg hpr] at hr; rw [← hr] at hmat; exact absurd hmat (by simp [hinm])
    · intro hnm
      by_cases hpr : NodeDAG.isPrunable ((dag.mNodes.setNodeChild i cid rc).getNode i) = true
      · -- pruned: the written slot equals the common material, which is rc itself
        rw [if_pos hpr] at hr
        have hall := isPrunable_all _ hpr
        rw [hstget] at hall
        have hgc := hall.2 cid
        rw [Node.get_set_self _ _ _ hcid] at hgc
        have hrcmat : isMaterialNode rc = true := by rw [hgc]; exact hall.1
        rw [← hr] at hnm
        exact absurd hrcmat (by simp [hnm])
      · rw [if_neg hpr] at hr
        rw [← hr]
        rw [hwrite, Node.get_set_self _ _ _ hcid]
    · by_cases hpr : NodeDAG.isPrunable ((dag.mNodes.setNodeChild i cid rc).getNode i) = true
      · rw [if_pos hpr] at hr
        have hall := isPrunable_all _ hpr
        rw [hstget] at hall
        have hgc := hall.2 cid
        rw [Node.get_set_self _ _ _ hcid] at hgc
        right; left
        refine ⟨hr.symm, ?_, hfields.2.2⟩
        rw [hgc]; exact hall.1
      · rw [if_neg hpr] at hr
        left; exact ⟨hr.symm, hboth.1, hboth.2, hfields.2.2⟩
    · intro him _; exact absurd him (by simp [hinm])
  · -- copy-on-write
    rw [if_neg hip] at h
    dsimp only at h
    by_cases hpr : NodeDAG.isPrunable
        ((if isMaterialNode i then makeNode i else dag.getNode i).set cid rc) = true
    · rw [if_pos hpr] at h
      simp only [Option.some.injEq, Prod.mk.injEq] at h
      obtain ⟨hd, hr⟩ := h
      subst hd
      have hall := isPrunable_all _ hpr
      have hgc := hall.2 cid
      rw [Node.get_set_self _ _ _ hcid] at hgc
      have hrcmat : isMaterialNode rc = true := by rw [hgc]; exact hall.1
      refine ⟨hok, rfl, rfl, le_refl _, fun j _ _ => rfl, fun j _ _ => rfl,
        fun _ j _ => rfl, fun _ => hr.symm, ?_, Or.inr (Or.inl ⟨hr.symm, hrcmat, rfl⟩), ?_⟩
      · intro hnm
        rw [← hr] at hnm
        exact absurd hrcmat (by simp [hnm])
      · -- a material parent with a genuinely new child never prunes:
        -- some other slot still holds the parent material
        intro him hrci
        exfalso
        rw [if_pos him] at hpr hall hgc
        have hk8 : (if cid = 0 then 1 else 0) < 8 := by split <;> omega
        have hkne : (if cid = 0 then 1 else 0) ≠ cid := by split <;> omega
        have hother := hall.2 (if cid = 0 then 1 else 0)
        rw [Node.get_set_ne _ _ _ _ hcid hk8 hkne, makeNode_get] at hother
        exact hrci (by omega)
    · rw [if_neg hpr] at h
      unfold NodeDAG.insert at h
      by_cases hsp : dag.mEditNodesBegin > dag.bakedNodesEnd
      · rw [if_pos hsp] at h
        dsimp only at h
        simp only [Option.some.injEq, Prod.mk.injEq] at h
        obtain ⟨hd, hr⟩ := h
        have hsp2 : dag.mBakedNodesEnd < dag.mEditNodesBegin := hsp
        have hrval : r = dag.mEditNodesBegin - 1 := hr.symm
        have hrnm : isMaterialNode r = false := by rw [isMaterialNode_false_iff]; omega
        have hwrite : dag1.getNode r =
            (if isMaterialNode i then makeNode i else dag.getNode i).set cid rc := by
          rw [← hd]
          simp only [NodeDAG.getNode]
          rw [hrval]
          exact getNode_setNode_self _ _ _
        have hframe : ∀ j, j ≠ r → dag1.getNode j = dag.getNode j := by
          intro j hj
          rw [← hd]
          simp only [NodeDAG.getNode]
          refine getNode_setNode_ne _ _ _ _ ?_
          omega
        have hfields : dag1.mBakedNodesEnd = dag.mBakedNodesEnd ∧
            dag1.mNodes.size = dag.mNodes.size ∧
            dag1.mEditNodesBegin = dag.mEditNodesBegin - 1 := by rw [← hd]; exact ⟨rfl, rfl, rfl⟩
        have hok1 : DagOK dag1 := by
          refine ⟨by omega, by omega, by omega, ?_⟩
          intro j hjm
          have hji : j ≠ r := by rw [isMaterialNode_true_iff] at hjm; omega
          rw [hframe j hji]; exact hok.clean j hjm
        refine ⟨hok1, hfields.1, hfields.2.1, by omega, ?_, ?_, ?_, ?_, ?_, ?_, ?_⟩
        · intro j _ hj2; exact hframe j (by omega)
        · intro j _ hj2; exact hframe j (by omega)
        · intro _ j hj2; exact hframe j (by omega)
        · intro hmat; rw [hrnm] at hmat; exact absurd hmat (by simp)
        · intro _; rw [hwrite, Node.get_set_self _ _ _ hcid]
        · right; right; exact ⟨by omega, by omega, by omega, hrnm⟩
        · intro _ _; exact ⟨by omega, by omega, by omega, hrnm⟩
      · rw [if_neg hsp] at h
        exact absurd h (by simp)

set_option maxHeartbeats 2000000

theorem PathOK_material (dag : NodeDAG) (ux uy uz h i : Nat) (hi : isMaterialNode i = true) :
    PathOK dag ux uy uz h i := by
  unfold PathOK
  rw [pathList_material _ _ _ _ _ _ hi]
  simp

theorem PathOK_tail (dag : NodeDAG) (ux uy uz h i : Nat) (hi : isMaterialNode i = false)
    (hp : PathOK dag ux uy uz (h + 1) i) :
    PathOK dag ux uy uz h ((dag.getNode i).get (childIdAt ux uy uz h)) ∧
    i ∉ pathList dag ux uy uz h ((dag.getNode i).get (childIdAt ux uy uz h)) ∧
    validIndex dag i := by
  obtain ⟨hnd, hvl⟩ := hp
  rw [pathList_node _ _ _ _ _ _ hi] at hnd hvl
  rw [List.nodup_cons] at hnd
  exact ⟨⟨hnd.2, fun j hj => hvl j (by simp [hj])⟩, hnd.1, hvl i (by simp)⟩

theorem editIterGo_succ (ux uy uz m : Nat) (fc : Bool) (h : Nat) (dag : NodeDAG) (i : Nat) :
    editIterGo ux uy uz m fc (h + 1) dag i =
      (let cid := childIdAt ux uy uz h
       let ceff := if isMaterialNode i then i else (dag.getNode i).get cid
       if ceff = m then some .early
       else if h + 1 ≥ 2 then
         match editIterGo ux uy uz m fc h dag ceff with
         | none => none
         | some .early => some .early
         | some (.ok dag1c rc) =>
           if (dag1c.getNode i).get cid ≠ rc then
             match dag1c.updateNodeChild i cid rc fc with
             | none => none
             | some (dag2, r) => some (.ok dag2 r)
           else some (.ok dag1c i)
       else
         match dag.updateNodeChild i cid m fc with
         | none => none
         | some (dag2, r) => some (.ok dag2 r)) := rfl



theorem pathList_zero (dag : NodeDAG) (ux uy uz i : Nat) : pathList dag ux uy uz 0 i = [] := rfl

theorem voxelFrom_zero (dag : NodeDAG) (ux uy uz i : Nat) :
    voxelFrom dag ux uy uz 0 i = i % MaterialCount := rfl

theorem editIterGo_spec (ux uy uz m : Nat) (fc : Bool) (hm : m < MaterialCount) :
    ∀ (h : Nat) (dag : NodeDAG) (i : Nat), 1 ≤ h → DagOK dag → PathOK dag ux uy uz h i →
    ∀ out, editIterGo ux uy uz m fc h dag i = some out →
      (out = .early → voxelFrom dag ux uy uz h i = m) ∧
      (∀ dag1 r, out = .ok dag1 r →
        DagOK dag1 ∧
        dag1.mBakedNodesEnd = dag.mBakedNodesEnd ∧
        dag1.mNodes.size = dag.mNodes.size ∧
        dag1.mEditNodesBegin ≤ dag.mEditNodesBegin ∧
        (∀ j, (j < dag1.mEditNodesBegin ∨ dag.mEditNodesBegin ≤ j) →
          j ∉ pathList dag ux uy uz h i → dag1.getNode j = dag.getNode j) ∧
        (fc = true → ∀ j, (j < dag1.mEditNodesBegin ∨ dag.mEditNodesBegin ≤ j) →
          dag1.getNode j = dag.getNode j) ∧
        voxelFrom dag1 ux uy uz h r = m ∧
        (isMaterialNode r = true → r = m) ∧
        (r = i ∨ (dag1.mEditNodesBegin ≤ r ∧ r < dag.mEditNodesBegin ∧
          dag.mBakedNodesEnd ≤ r ∧ isMaterialNode r = false) ∨
          (isMaterialNode r = true ∧ r = m)) ∧
        (isMaterialNode i = true → dag1.mEditNodesBegin ≤ r ∧ r < dag.mEditNodesBegin ∧
          dag.mBakedNodesEnd ≤ r ∧ isMaterialNode r = false) ∧
        (∀ j ∈ pathList dag1 ux uy uz h r,
          (dag1.mEditNodesBegin ≤ j ∧ j < dag.mEditNodesBegin) ∨
            j ∈ pathList dag ux uy uz h i)) := by
  have hMC : MaterialCount = 65536 := rfl
  intro h
  induction h with
  | zero => intro dag i h1; omega
  | succ h ih =>
    intro dag i h1 hok hpath out heq
    have hA1 := hok.mat_le
    have hA2 := hok.baked_le
    have hA3 := hok.edit_le
    rw [editIterGo_succ] at heq
    dsimp only at heq
    have hcid8 : childIdAt ux uy uz h < 8 := childIdAt_lt ux uy uz h
    by_cases hearly : (if isMaterialNode i then i else
        (dag.getNode i).get (childIdAt ux uy uz h)) = m
    · rw [if_pos hearly] at heq
      injection heq with h2
      subst h2
      refine ⟨fun _ => ?_, fun dag1 r hok2 => nomatch hok2⟩
      by_cases himat : isMaterialNode i = true
      · rw [if_pos himat] at hearly
        rw [voxelFrom_material dag ux uy uz (h + 1) i himat, hearly]
      · have hif : isMaterialNode i = false := eq_false_of_ne_true himat
        rw [if_neg himat] at hearly
        rw [voxelFrom_node dag ux uy uz h i hif, hearly]
        exact voxelFrom_material dag ux uy uz h m (by rw [isMaterialNode_true_iff]; exact hm)
    · rw [if_neg hearly] at heq
      by_cases hh2 : h + 1 ≥ 2
      · rw [if_pos hh2] at heq
        have hge1 : 1 ≤ h := by omega
        by_cases himat : isMaterialNode i = true
        · -- the node is a material sentinel: it propagates itself downward
          rw [if_pos himat] at heq hearly
          have hi65 : i < MaterialCount := (isMaterialNode_true_iff i).mp himat
          have hpathc : PathOK dag ux uy uz h i := PathOK_material dag ux uy uz h i himat
          have hpl : pathList dag ux uy uz (h + 1) i = [] :=
            pathList_material dag ux uy uz (h + 1) i himat
          have hplc : pathList dag ux uy uz h i = [] :=
            pathList_material dag ux uy uz h i himat
          cases hchild : editIterGo ux uy uz m fc h dag i with
          | none => rw [hchild] at heq; exact absurd heq (by simp)
          | some co =>
            rw [hchild] at heq
            cases co with
            | early =>
              injection heq with h2
              subst h2
              refine ⟨fun _ => ?_, fun dag1 r hok2 => nomatch hok2⟩
              have hv := (ih dag i hge1 hok hpathc _ hchild).1 rfl
              rw [voxelFrom_material dag ux uy uz h i himat] at hv
              exact absurd hv hearly
            | ok dag1c rc =>
              dsimp only at heq
              have hC := (ih dag i hge1 hok hpathc _ hchild).2 dag1c rc rfl
              have hCok := hC.1
              have hCbak := hC.2.1
              have hCsize := hC.2.2.1
              have hCeb := hC.2.2.2.1
              have hCframe := hC.2.2.2.2.1
              have hCfc := hC.2.2.2.2.2.1
              have hCvox := hC.2.2.2.2.2.2.1
              have hCmat := hC.2.2.2.2.2.2.2.1
              have hCret := hC.2.2.2.2.2.2.2.2.1
              have hCmati := hC.2.2.2.2.2.2.2.2.2.1
              have hCsub := hC.2.2.2.2.2.2.2.2.2.2
              have hB2 := hCok.baked_le
              have hB3 := hCok.edit_le
              obtain ⟨hrc1, hrc2, hrc3, hrc4⟩ := hCmati himat
              have hstored : (dag1c.getNode i).get (childIdAt ux uy uz h) = 0 := by
                rw [hCok.clean i himat, makeNode_get]
              have hne : (dag1c.getNode i).get (childIdAt ux uy uz h) ≠ rc := by
                rw [hstored]; omega
              rw [if_pos hne] at heq
              cases hupd : dag1c.updateNodeChild i (childIdAt ux uy uz h) rc fc with
              | none => rw [hupd] at heq; exact absurd heq (by simp)
              | some p =>
                obtain ⟨dag2, r2⟩ := p
                rw [hupd] at heq
                injection heq with h2
                subst h2
                refine ⟨fun hef => (nomatch hef), ?_⟩
                intro dag1 r hok2
                injection hok2 with ha hb
                subst ha
                subst hb
                have hU := updateNodeChild_spec dag1c i (childIdAt ux uy uz h) rc fc hcid8 hCok dag2 r2 hupd
                have hUok := hU.1
                have hUbak := hU.2.1
                have hUsize := hU.2.2.1
                have hUeb := hU.2.2.2.1
                have hUf1 := hU.2.2.2.2.1
                have hUf2 := hU.2.2.2.2.2.1
                have hUfc := hU.2.2.2.2.2.2.1
                have hUmat := hU.2.2.2.2.2.2.2.1
                have hUnm := hU.2.2.2.2.2.2.2.2.1
                have hUret := hU.2.2.2.2.2.2.2.2.2.1
                have hUmati := hU.2.2.2.2.2.2.2.2.2.2
                have hD2 := hUok.baked_le
                obtain ⟨hU1, hU2, hU3, hU4⟩ := hUmati himat (by omega)
                have hagree : ∀ j ∈ pathList dag1c ux uy uz h rc,
                    dag2.getNode j = dag1c.getNode j := by
                  intro j hj
                  have hjsub := hCsub j hj
                  rw [hplc] at hjsub
                  simp only [List.not_mem_nil, or_false] at hjsub
                  have hji : j ≠ i := by omega
                  exact hUf2 j hji (by omega)
                have hcongr := voxelFrom_congr ux uy uz h dag1c dag2 rc hagree
                refine ⟨hUok, by omega, by omega, by omega, ?_, ?_, ?_, ?_, ?_, ?_, ?_⟩
                · intro j hj _
                  by_cases hjm : isMaterialNode j = true
                  · rw [hUok.clean j hjm, hok.clean j hjm]
                  · have hji : j ≠ i := fun he => hjm (he ▸ himat)
                    have h2a : dag2.getNode j = dag1c.getNode j := by
                      rcases hj with hjlt | hjge
                      · exact hUf1 j hji (by omega)
                      · exact hUf2 j hji (by omega)
                    rw [h2a]
                    refine hCframe j ?_ (by rw [hplc]; simp)
                    rcases hj with hjlt | hjge
                    · left; omega
                    · right; omega
                · intro hfc j hj
                  have h2a : dag2.getNode j = dag1c.getNode j := by
                    rcases hj with hjlt | hjge
                    · exact hUfc hfc j (Or.inl (by omega))
                    · exact hUfc hfc j (Or.inr (by omega))
                  rw [h2a]
                  refine hCfc hfc j ?_
                  rcases hj with hjlt | hjge
                  · left; omega
                  · right; omega
                · rw [voxelFrom_node dag2 ux uy uz h r2 hU4, hUnm hU4, hcongr.1]
                  exact hCvox
                · intro hmatr; rw [hU4] at hmatr; exact absurd hmatr (by simp)
                · right; left; exact ⟨by omega, by omega, by omega, hU4⟩
                · intro _; exact ⟨by omega, by omega, by omega, hU4⟩
                · intro j hj
                  rw [pathList_node dag2 ux uy uz h r2 hU4, hUnm hU4, hcongr.2] at hj
                  rcases List.mem_cons.mp hj with hje | hjt
                  · left; omega
                  · have hjsub := hCsub j hjt
                    rw [hplc] at hjsub
                    simp only [List.not_mem_nil, or_false] at hjsub
                    left; omega
        · -- ordinary node: descend into the stored child
          have hif : isMaterialNode i = false := eq_false_of_ne_true himat
          rw [if_neg himat] at heq hearly
          obtain ⟨hpathc, hinotin, hival⟩ := PathOK_tail dag ux uy uz h i hif hpath
          have hplsucc := pathList_node dag ux uy uz h i hif
          cases hchild : editIterGo ux uy uz m fc h dag
              ((dag.getNode i).get (childIdAt ux uy uz h)) with
          | none => rw [hchild] at heq; exact absurd heq (by simp)
          | some co =>
            rw [hchild] at heq
            cases co with
            | early =>
              injection heq with h2
              subst h2
              refine ⟨fun _ => ?_, fun dag1 r hok2 => nomatch hok2⟩
              have hv := (ih dag _ hge1 hok hpathc _ hchild).1 rfl
              rw [voxelFrom_node dag ux uy uz h i hif]
              exact hv
            | ok dag1c rc =>
              dsimp only at heq
              have hC := (ih dag _ hge1 hok hpathc _ hchild).2 dag1c rc rfl
              have hCok := hC.1
              have hCbak := hC.2.1
              have hCsize := hC.2.2.1
              have hCeb := hC.2.2.2.1
              have hCframe := hC.2.2.2.2.1
              have hCfc := hC.2.2.2.2.2.1
              have hCvox := hC.2.2.2.2.2.2.1
              have hCmat := hC.2.2.2.2.2.2.2.1
              have hCret := hC.2.2.2.2.2.2.2.2.1
              have hCmati := hC.2.2.2.2.2.2.2.2.2.1
              have hCsub := hC.2.2.2.2.2.2.2.2.2.2
              have hB2 := hCok.baked_le
              have hB3 := hCok.edit_le
              have hieb : i < dag1c.mEditNodesBegin ∨ dag.mEditNodesBegin ≤ i := by
                rcases hival with ⟨hb1, hb2⟩ | ⟨he1, he2⟩
                · left; omega
                · right; exact he1
              have hstored : dag1c.getNode i = dag.getNode i := hCframe i hieb hinotin
              by_cases hne : (dag1c.getNode i).get (childIdAt ux uy uz h) ≠ rc
              · rw [if_pos hne] at heq
                cases hupd : dag1c.updateNodeChild i (childIdAt ux uy uz h) rc fc with
                | none => rw [hupd] at heq; exact absurd heq (by simp)
                | some p =>
                  obtain ⟨dag2, r2⟩ := p
                  rw [hupd] at heq
                  injection heq with h2
                  subst h2
                  refine ⟨fun hef => (nomatch hef), ?_⟩
                  intro dag1 r hok2
                  injection hok2 with ha hb
                  subst ha
                  subst hb
                  have hU := updateNodeChild_spec dag1c i (childIdAt ux uy uz h) rc fc hcid8 hCok dag2 r2 hupd
                  have hUok := hU.1
                  have hUbak := hU.2.1
                  have hUsize := hU.2.2.1
                  have hUeb := hU.2.2.2.1
                  have hUf1 := hU.2.2.2.2.1
                  have hUf2 := hU.2.2.2.2.2.1
                  have hUfc := hU.2.2.2.2.2.2.1
                  have hUmat := hU.2.2.2.2.2.2.2.1
                  have hUnm := hU.2.2.2.2.2.2.2.2.1
                  have hUret := hU.2.2.2.2.2.2.2.2.2.1
                  have hUmati := hU.2.2.2.2.2.2.2.2.2.2
                  have hD2 := hUok.baked_le
                  have hagree : ∀ j ∈ pathList dag1c ux uy uz h rc,
                      dag2.getNode j = dag1c.getNode j := by
                    intro j hj
                    rcases hCsub j hj with hfr | htl
                    · have hji : j ≠ i := by
                        rcases hival with ⟨hb1, hb2⟩ | ⟨he1, he2⟩ <;> omega
                      exact hUf2 j hji (by omega)
                    · have hji : j ≠ i := fun he => hinotin (he ▸ htl)
                      rcases hpathc.2 j htl with ⟨hb1, hb2⟩ | ⟨he1, he2⟩
                      · exact hUf1 j hji (by omega)
                      · exact hUf2 j hji (by omega)
                  have hcongr := voxelFrom_congr ux uy uz h dag1c dag2 rc hagree
                  refine ⟨hUok, by omega, by omega, by omega, ?_, ?_, ?_, ?_, ?_, ?_, ?_⟩
                  · intro j hj hnotin
                    rw [hplsucc, List.mem_cons] at hnotin
                    push_neg at hnotin
                    have h2a : dag2.getNode j = dag1c.getNode j := by
                      rcases hj with hjlt | hjge
                      · exact hUf1 j hnotin.1 (by omega)
                      · exact hUf2 j hnotin.1 (by omega)
                    rw [h2a]
                    refine hCframe j ?_ hnotin.2
                    rcases hj with hjlt | hjge
                    · left; omega
                    · right; omega
                  · intro hfc j hj
                    have h2a : dag2.getNode j = dag1c.getNode j := by
                      rcases hj with hjlt | hjge
                      · exact hUfc hfc j (Or.inl (by omega))
                      · exact hUfc hfc j (Or.inr (by omega))
                    rw [h2a]
                    refine hCfc hfc j ?_
                    rcases hj with hjlt | hjge
                    · left; omega
                    · right; omega
                  · by_cases hrm : isMaterialNode r2 = true
                    · have hr2rc := hUmat hrm
                      rw [voxelFrom_material dag2 ux uy uz (h + 1) r2 hrm, hr2rc]
                      exact hCmat (hr2rc ▸ hrm)
                    · have hrnm : isMaterialNode r2 = false := eq_false_of_ne_true hrm
                      rw [voxelFrom_node dag2 ux uy uz h r2 hrnm, hUnm hrnm, hcongr.1]
                      exact hCvox
                  · intro hrm
                    rw [hUmat hrm]
                    exact hCmat (by rw [← hUmat hrm]; exact hrm)
                  · rcases hUret with ⟨he1, _, _, _⟩ | ⟨he1, he2, he3⟩ | ⟨he1, he2, he3, he4⟩
                    · exact Or.inl he1
                    · right; right
                      exact ⟨by rw [he1]; exact he2, by rw [he1]; exact hCmat he2⟩
                    · right; left; exact ⟨by omega, by omega, by omega, he4⟩
                  · intro hmm; exact absurd hmm (by simp [hif])
                  · intro j hj
                    by_cases hrm : isMaterialNode r2 = true
                    · rw [pathList_material dag2 ux uy uz (h + 1) r2 hrm] at hj
                      exact absurd hj (by simp)
                    · have hrnm : isMaterialNode r2 = false := eq_false_of_ne_true hrm
                      rw [pathList_node dag2 ux uy uz h r2 hrnm, hUnm hrnm, hcongr.2] at hj
                      rcases List.mem_cons.mp hj with hje | hjt
                      · subst hje
                        rcases hUret with ⟨he1, _, _, _⟩ | ⟨he1, he2, _⟩ |
                          ⟨he1, he2, he3, _⟩
                        · right; rw [hplsucc, he1]; simp
                        · rw [← he1] at he2; exact absurd he2 (by simp [hrnm])
                        · left; omega
                      · rcases hCsub j hjt with hfr | htl
                        · left; omega
                        · right; rw [hplsucc]; simp [htl]
              · rw [if_neg hne] at heq
                push_neg at hne
                injection heq with h2
                subst h2
                refine ⟨fun hef => (nomatch hef), ?_⟩
                intro dag1 r hok2
                injection hok2 with ha hb
                subst ha
                subst hb
                refine ⟨hCok, hCbak, hCsize, hCeb, ?_, hCfc, ?_, ?_, Or.inl rfl, ?_, ?_⟩
                · intro j hj hnotin
                  rw [hplsucc, List.mem_cons] at hnotin
                  push_neg at hnotin
                  exact hCframe j hj hnotin.2
                · rw [voxelFrom_node dag1c ux uy uz h i hif, hne]
                  exact hCvox
                · intro hmm; exact absurd hmm (by simp [hif])
                · intro hmm; exact absurd hmm (by simp [hif])
                · intro j hj
                  rw [pathList_node dag1c ux uy uz h i hif, hne] at hj
                  rcases List.mem_cons.mp hj with hje | hjt
                  · right; rw [hplsucc]; simp [hje]
                  · rcases hCsub j hjt with hfr | htl
                    · left; exact hfr
                    · right; rw [hplsucc]; simp [htl]
      · -- height 1: update the leaf child directly
        rw [if_neg hh2] at heq
        have h0 : h = 0 := by omega
        subst h0
        cases hupd : dag.updateNodeChild i (childIdAt ux uy uz 0) m fc with
        | none => rw [hupd] at heq; exact absurd heq (by simp)
        | some p =>
          obtain ⟨dag2, r2⟩ := p
          rw [hupd] at heq
          injection heq with h2
          subst h2
          refine ⟨fun hef => (nomatch hef), ?_⟩
          intro dag1 r hok2
          injection hok2 with ha hb
          subst ha
          subst hb
          have hU := updateNodeChild_spec dag i (childIdAt ux uy uz 0) m fc (childIdAt_lt ux uy uz 0) hok dag2 r2 hupd
          have hUok := hU.1
          have hUbak := hU.2.1
          have hUsize := hU.2.2.1
          have hUeb := hU.2.2.2.1
          have hUf1 := hU.2.2.2.2.1
          have hUf2 := hU.2.2.2.2.2.1
          have hUfc := hU.2.2.2.2.2.2.1
          have hUmat := hU.2.2.2.2.2.2.2.1
          have hUnm := hU.2.2.2.2.2.2.2.2.1
          have hUret := hU.2.2.2.2.2.2.2.2.2.1
          have hUmati := hU.2.2.2.2.2.2.2.2.2.2
          have hD2 := hUok.baked_le
          have hmmat : isMaterialNode m = true := by rw [isMaterialNode_true_iff]; exact hm
          refine ⟨hUok, hUbak, hUsize, hUeb, ?_, hUfc, ?_, hUmat, ?_, ?_, ?_⟩
          · intro j hj hnotin
            by_cases hjm : isMaterialNode j = true
            · rw [hUok.clean j hjm, hok.clean j hjm]
            · have hji : j ≠ i := by
                intro he
                apply hnotin
                have hif2 : isMaterialNode i = false := by
                  rw [← he]; exact eq_false_of_ne_true hjm
                rw [he, pathList_node dag ux uy uz 0 i hif2, pathList_zero]
                simp
              rcases hj with hjlt | hjge
              · exact hUf1 j hji (by omega)
              · exact hUf2 j hji (by omega)
          · by_cases hrm : isMaterialNode r2 = true
            · rw [voxelFrom_material dag2 ux uy uz (0 + 1) r2 hrm]
              exact hUmat hrm
            · have hrnm : isMaterialNode r2 = false := eq_false_of_ne_true hrm
              rw [voxelFrom_node dag2 ux uy uz 0 r2 hrnm, hUnm hrnm]
              exact voxelFrom_material dag2 ux uy uz 0 m hmmat
          · rcases hUret with ⟨he1, _, _, _⟩ | ⟨he1, he2, _⟩ | ⟨he1, he2, he3, he4⟩
            · exact Or.inl he1
            · right; right; exact ⟨by rw [he1]; exact he2, he1⟩
            · right; left; exact ⟨by omega, by omega, by omega, he4⟩
          · intro himat
            rw [if_pos himat] at hearly
            obtain ⟨he1, he2, he3, he4⟩ := hUmati himat (by omega)
            exact ⟨by omega, by omega, he3, he4⟩
          · intro j hj
            by_cases hrm : isMaterialNode r2 = true
            · rw [pathList_material dag2 ux uy uz (0 + 1) r2 hrm] at hj
              exact absurd hj (by simp)
            · have hrnm : isMaterialNode r2 = false := eq_false_of_ne_true hrm
              rw [pathList_node dag2 ux uy uz 0 r2 hrnm, pathList_zero] at hj
              simp only [List.mem_singleton] at hj
              subst hj
              rcases hUret with ⟨he1, _, _, _⟩ | ⟨he1, he2, _⟩ | ⟨he1, he2, he3, _⟩
              · right
                rw [he1, pathList_node dag ux uy uz 0 i (by rw [← he1]; exact hrnm)]
                simp
              · exact absurd (he1 ▸ he2) (by simp [hrnm])
              · left; omega



theorem upd_self (s : Nat → NodeState) (k : Nat) (v : NodeState) : upd s k v k = v := by
  simp [upd]

theorem upd_ne (s : Nat → NodeState) (k : Nat) (v : NodeState) (j : Nat) (hj : j ≠ k) :
    upd s k v j = s j := by
  simp [upd, hj]

/-- The ascent reads only the stack frames strictly above its height. -/
theorem ascend_congr (ux uy uz m : Nat) (fc : Bool) :
    ∀ (n h : Nat), rootHeight - h ≤ n → ∀ (s s2 : Nat → NodeState) (dag : NodeDAG) (r : Nat),
      (∀ j, h < j → (s2 j).mIndex = (s j).mIndex) →
      ascend ux uy uz m fc s2 dag r h = ascend ux uy uz m fc s dag r h := by
  intro n
  induction n with
  | zero =>
    intro h hn s s2 dag r _
    have hR : h ≥ rootHeight := by omega
    rw [ascend, ascend]
    simp [hR]
  | succ n ihn =>
    intro h hn s s2 dag r hagree
    by_cases hR : h ≥ rootHeight
    · rw [ascend, ascend]; simp [hR]
    · rw [ascend, ascend]
      simp only [hR, dite_false, dif_neg]
      rw [hagree (h + 1) (by omega)]
      cases hstep : (if h + 1 > 1 then
          if (dag.getNode ((s (h + 1)).mIndex)).get (childIdAt ux uy uz h) ≠ r then
            dag.updateNodeChild ((s (h + 1)).mIndex) (childIdAt ux uy uz h) r fc
          else some (dag, (s (h + 1)).mIndex)
        else dag.updateNodeChild ((s (h + 1)).mIndex) (childIdAt ux uy uz h) m fc) with
      | none => rfl
      | some p =>
        obtain ⟨dag1, r1⟩ := p
        exact ihn (h + 1) (by omega) s s2 dag1 r1 (fun j hj => hagree j (by omega))



theorem ascend_finish (ux uy uz m : Nat) (fc : Bool) (s : Nat → NodeState) (dag : NodeDAG)
    (r h : Nat) (hR : h ≥ rootHeight) :
    ascend ux uy uz m fc s dag r h = some (.finished dag r) := by
  rw [ascend]; simp [hR]

/-- Simulation of the loop ascent: once the frame at the current height is
processed, the loop runs exactly the ascend recursion, driven by the result
stored one frame below. -/
theorem svLoop_processed (ux uy uz m : Nat) (fc : Bool) :
    ∀ (fuel h : Nat) (dag : NodeDAG) (s : Nat → NodeState),
      1 ≤ h → h ≤ rootHeight → rootHeight - h < fuel →
      (∀ j, h ≤ j → j ≤ rootHeight → (s j).mProcessedNode = true) →
      svLoop ux uy uz m fc fuel dag s h =
        ascend ux uy uz m fc s dag ((s (h - 1)).mIndex) (h - 1) := by
  intro fuel
  induction fuel with
  | zero => intro h dag s h1 h2 h3 _; omega
  | succ fuel ih =>
    intro h dag s h1 h2 h3 hproc
    rw [svLoop]
    dsimp only
    have hsp : (s h).mProcessedNode = true := hproc h (le_refl h) h2
    rw [if_neg (by simp [hsp])]
    rw [ascend]
    have hnR : ¬(h - 1 ≥ rootHeight) := by omega
    simp only [hnR, dite_false, dif_neg]
    have hh : h - 1 + 1 = h := by omega
    rw [hh]
    cases hstep : (if h > 1 then
        if (dag.getNode ((s h).mIndex)).get (childIdAt ux uy uz (h - 1)) ≠ (s (h - 1)).mIndex then
          dag.updateNodeChild ((s h).mIndex) (childIdAt ux uy uz (h - 1)) ((s (h - 1)).mIndex) fc
        else some (dag, (s h).mIndex)
      else dag.updateNodeChild ((s h).mIndex) (childIdAt ux uy uz (h - 1)) m fc) with
    | none => rfl
    | some p =>
      obtain ⟨dag1, r1⟩ := p
      dsimp only
      by_cases hR : h + 1 > rootHeight
      · rw [if_pos hR]
        rw [ascend_finish ux uy uz m fc s dag1 r1 h (by omega)]
        have hhR : rootHeight = h := by omega
        rw [hhR, upd_self]
      · rw [if_neg hR]
        rw [ih (h + 1) dag1 (upd s h ⟨r1, true⟩) (by omega) (by omega) (by omega) ?_]
        · have hs1 : (upd s h ⟨r1, true⟩ (h + 1 - 1)).mIndex = r1 := by
            have : h + 1 - 1 = h := by omega
            rw [this, upd_self]
          rw [hs1]
          have : h + 1 - 1 = h := by omega
          rw [this]
          exact ascend_congr ux uy uz m fc rootHeight h (by omega) s (upd s h ⟨r1, true⟩)
            dag1 r1 (fun j hj => by rw [upd_ne _ _ _ _ (by omega)])
        · intro j hj1 hj2
          rw [upd_ne _ _ _ _ (by omega)]
          exact hproc j (by omega) hj2



/-- Simulation of the full loop from an unprocessed frame: the loop
computes the subtree outcome (editIterGo) and then ascends. -/
theorem svLoop_eq_editIterGo (ux uy uz m : Nat) (fc : Bool) :
    ∀ (h : Nat), 1 ≤ h → h ≤ rootHeight →
    ∀ (fuel : Nat) (dag : NodeDAG) (s : Nat → NodeState) (i : Nat),
      s h = ⟨i, false⟩ →
      (∀ j, h < j → j ≤ rootHeight → (s j).mProcessedNode = true) →
      2 * h + (rootHeight - h) < fuel →
      svLoop ux uy uz m fc fuel dag s h =
        (match editIterGo ux uy uz m fc h dag i with
        | none => some .nospace
        | some .early => some .early
        | some (.ok dag1 r) => ascend ux uy uz m fc s dag1 r h) := by
  intro h
  induction h with
  | zero => intro hk1; omega
  | succ k ihk =>
    intro hk1 hkR fuel dag s i hsi hproc hfuel
    cases fuel with
    | zero => omega
    | succ f =>
      rw [svLoop]
      dsimp only
      rw [hsi]
      dsimp only
      rw [if_pos rfl]
      simp only [Nat.add_sub_cancel]
      rw [editIterGo_succ]
      dsimp only
      by_cases hearly : (if isMaterialNode i then i else
          (dag.getNode i).get (childIdAt ux uy uz k)) = m
      · rw [if_pos hearly, if_pos hearly]
      · rw [if_neg hearly, if_neg hearly]
        by_cases hk0 : 1 ≤ k
        · -- interior level: descend
          rw [if_pos (by omega : k + 1 ≥ 2), if_pos (by omega : k + 1 ≥ 2)]
          have hs2k : (upd (upd s k ⟨if isMaterialNode i then i else
              (dag.getNode i).get (childIdAt ux uy uz k), false⟩) (k + 1) ⟨i, true⟩) k =
              ⟨if isMaterialNode i then i else
                (dag.getNode i).get (childIdAt ux uy uz k), false⟩ := by
            rw [upd_ne _ _ _ _ (by omega), upd_self]
          rw [ihk (by omega) (by omega) f dag _ _ hs2k ?_ (by omega)]
          · cases hchild : editIterGo ux uy uz m fc k dag (if isMaterialNode i then i else
                (dag.getNode i).get (childIdAt ux uy uz k)) with
            | none => rfl
            | some co =>
              cases co with
              | early => rfl
              | ok dag1c rc =>
                dsimp only
                rw [ascend]
                have hnR : ¬(k ≥ rootHeight) := by omega
                simp only [hnR, dite_false, dif_neg]
                have hk1e : k + 1 - 1 = k := by omega
                rw [upd_self]
                dsimp only
                rw [if_pos (by omega : k + 1 > 1)]
                by_cases hne : (dag1c.getNode i).get (childIdAt ux uy uz k) ≠ rc
                · rw [if_pos hne, if_pos hne]
                  cases hupd : dag1c.updateNodeChild i (childIdAt ux uy uz k) rc fc with
                  | none => rfl
                  | some p =>
                    obtain ⟨dag2, r2⟩ := p
                    dsimp only
                    exact ascend_congr ux uy uz m fc rootHeight (k + 1) (by omega) s _
                      dag2 r2 (fun j hj => by rw [upd_ne _ _ _ _ (by omega),
                        upd_ne _ _ _ _ (by omega)])
                · rw [if_neg hne, if_neg hne]
                  dsimp only
                  exact ascend_congr ux uy uz m fc rootHeight (k + 1) (by omega) s _
                    dag1c i (fun j hj => by rw [upd_ne _ _ _ _ (by omega),
                      upd_ne _ _ _ _ (by omega)])
          · intro j hj1 hj2
            by_cases hjk : j = k + 1
            · rw [hjk, upd_self]
            · rw [upd_ne _ _ _ _ hjk, upd_ne _ _ _ _ (by omega)]
              exact hproc j (by omega) hj2
        · -- height 1: stay and process
          have hk00 : k = 0 := by omega
          subst hk00
          rw [if_neg (by omega : ¬(0 + 1 ≥ 2))]
          rw [svLoop_processed ux uy uz m fc f 1 dag _ (by omega) (by omega) (by omega) ?_]
          · rw [ascend]
            have hnR : ¬(1 - 1 ≥ rootHeight) := by omega
            simp only [hnR, dite_false, dif_neg]
            have h10 : (1 : Nat) - 1 = 0 := rfl
            rw [h10]
            rw [if_neg (by omega : ¬(0 + 1 > 1))]
            rw [upd_self]
            dsimp only
            cases hupd : dag.updateNodeChild i (childIdAt ux uy uz 0) m fc with
            | none => rfl
            | some p =>
              obtain ⟨dag2, r2⟩ := p
              dsimp only
              exact ascend_congr ux uy uz m fc rootHeight 1 (by omega) s _
                dag2 r2 (fun j hj => by rw [upd_ne _ _ _ _ (by omega)])
          · intro j hj1 hj2
            by_cases hjk : j = 1
            · rw [hjk, upd_self]
            · rw [upd_ne _ _ _ _ hjk]
              exact hproc j (by omega) hj2




theorem getD_set_self (l : List Nat) (i a : Nat) (h : i < l.length) :
    (l.set i a).getD i 0 = a := by
  induction l generalizing i with
  | nil => simp at h
  | cons b t ihl =>
    cases i with
    | zero => rfl
    | succ i => exact ihl i (by simpa using h)

theorem getD_set_ne (l : List Nat) (i a j : Nat) (hj : j ≠ i) :
    (l.set i a).getD j 0 = l.getD j 0 := by
  induction l generalizing i j with
  | nil => simp [List.set]
  | cons b t ihl =>
    cases i with
    | zero =>
      cases j with
      | zero => omega
      | succ j => rfl
    | succ i =>
      cases j with
      | zero => rfl
      | succ j => exact ihl i j (by omega)

theorem set_getD_self (l : List Nat) (i : Nat) (h : i < l.length) :
    l.set i (l.getD i 0) = l := by
  induction l generalizing i with
  | nil => rfl
  | cons b t ihl =>
    cases i with
    | zero => rfl
    | succ i => simp only [List.getD_cons_succ, List.set]; rw [ihl i (by simpa using h)]

theorem padTo_getD_lt (l : List Nat) (n j : Nat) (h : j < l.length) :
    (padTo l n).getD j 0 = l.getD j 0 := by
  unfold padTo
  rw [List.getD_eq_getElem?_getD, List.getD_eq_getElem?_getD, List.getElem?_append, if_pos h]

theorem padTo_length (l : List Nat) (n : Nat) : (padTo l n).length = max l.length n := by
  simp [padTo]; omega

/-- After setRootNodeIndex on an in-bounds state the live root is the
recorded one. -/
theorem rootNodeIndex_setRootNodeIndex (v : Volume) (r : Nat)
    (hcur : v.mCurrentRoot < v.mRootNodeIndices.length) :
    (v.setRootNodeIndex r).rootNodeIndex = r := by
  unfold Volume.setRootNodeIndex Volume.rootNodeIndex
  split
  · dsimp only
    split
    · rename_i hge
      refine getD_set_self _ _ _ ?_
      rw [padTo_length]; omega
    · rename_i hlt
      refine getD_set_self _ _ _ ?_
      omega
  · dsimp only
    exact getD_set_self _ _ _ hcur

/-- The agreement of the recursive and the iterative point-edit bodies:
they make the same updates and return the same results, apart from the
early exit which the recursion reports as an unchanged state. -/
theorem editRec_eq_editIter (ux uy uz m : Nat) (fc : Bool) (hm : m < MaterialCount) :
    ∀ (h : Nat) (dag : NodeDAG) (i : Nat), 1 ≤ h → DagOK dag → PathOK dag ux uy uz h i →
      (editIterGo ux uy uz m fc h dag i = some .early ∧
        editRecGo ux uy uz m fc h dag i = some (dag, i) ∧
        voxelFrom dag ux uy uz h i = m) ∨
      (editIterGo ux uy uz m fc h dag i = none ∧
        editRecGo ux uy uz m fc h dag i = none) ∨
      (∃ dag1 r, editIterGo ux uy uz m fc h dag i = some (.ok dag1 r) ∧
        editRecGo ux uy uz m fc h dag i = some (dag1, r)) := by
  have hMC : MaterialCount = 65536 := rfl
  intro h
  induction h with
  | zero => intro dag i h1; omega
  | succ h ih =>
    intro dag i h1 hok hpath
    have hA1 := hok.mat_le
    have hA2 := hok.baked_le
    rw [editIterGo_succ, editRecGo]
    dsimp only
    have hcid8 : childIdAt ux uy uz h < 8 := childIdAt_lt ux uy uz h
    by_cases hearly : (if isMaterialNode i then i else
        (dag.getNode i).get (childIdAt ux uy uz h)) = m
    · rw [if_pos hearly, if_pos hearly]
      left
      refine ⟨rfl, rfl, ?_⟩
      by_cases himat : isMaterialNode i = true
      · rw [if_pos himat] at hearly
        rw [voxelFrom_material dag ux uy uz (h + 1) i himat, hearly]
      · have hif : isMaterialNode i = false := eq_false_of_ne_true himat
        rw [if_neg himat] at hearly
        rw [voxelFrom_node dag ux uy uz h i hif, hearly]
        exact voxelFrom_material dag ux uy uz h m (by rw [isMaterialNode_true_iff]; exact hm)
    · rw [if_neg hearly, if_neg hearly]
      by_cases hh2 : h + 1 ≥ 2
      · rw [if_pos hh2, if_pos (by omega : h + 1 > 1)]
        have hge1 : 1 ≤ h := by omega
        by_cases himat : isMaterialNode i = true
        · -- material node: the effective child is the node itself
          rw [if_pos himat] at hearly ⊢
          have hpathc : PathOK dag ux uy uz h i := PathOK_material dag ux uy uz h i himat
          rcases ih dag i hge1 hok hpathc with ⟨hie, hre, hv⟩ | ⟨hie, hre⟩ | ⟨dag1c, rc, hie, hre⟩
          · -- child early would force the node itself to equal m, excluded
            rw [voxelFrom_material dag ux uy uz h i himat] at hv
            exact absurd hv hearly
          · rw [hie, hre]
            right; left; exact ⟨rfl, rfl⟩
          · rw [hie, hre]
            dsimp only
            have hC := (editIterGo_spec ux uy uz m fc hm h dag i hge1 hok hpathc _ hie).2
              dag1c rc rfl
            have hCok := hC.1
            have hCmati := hC.2.2.2.2.2.2.2.2.2.1
            obtain ⟨hrc1, hrc2, hrc3, hrc4⟩ := hCmati himat
            have hstored : (dag1c.getNode i).get (childIdAt ux uy uz h) = 0 := by
              rw [hCok.clean i himat, makeNode_get]
            have hi65 : i < MaterialCount := (isMaterialNode_true_iff i).mp himat
            have hne : (dag1c.getNode i).get (childIdAt ux uy uz h) ≠ rc := by
              rw [hstored]; omega
            have hnerc : ¬(rc = i) := by omega
            rw [if_pos hne, if_neg hnerc]
            cases hupd : dag1c.updateNodeChild i (childIdAt ux uy uz h) rc fc with
            | none => right; left; exact ⟨rfl, rfl⟩
            | some p =>
              obtain ⟨dag2, r2⟩ := p
              right; right; exact ⟨dag2, r2, rfl, rfl⟩
        · -- ordinary node
          have hif : isMaterialNode i = false := eq_false_of_ne_true himat
          rw [if_neg himat] at hearly ⊢
          obtain ⟨hpathc, hinotin, hival⟩ := PathOK_tail dag ux uy uz h i hif hpath
          rcases ih dag ((dag.getNode i).get (childIdAt ux uy uz h)) hge1 hok hpathc with
            ⟨hie, hre, hv⟩ | ⟨hie, hre⟩ | ⟨dag1c, rc, hie, hre⟩
          · -- child early: the recursion bubbles the unchanged state up
            rw [hie, hre]
            dsimp only
            left
            refine ⟨rfl, by rw [if_pos rfl], ?_⟩
            rw [voxelFrom_node dag ux uy uz h i hif]
            exact hv
          · rw [hie, hre]
            right; left; exact ⟨rfl, rfl⟩
          · rw [hie, hre]
            dsimp only
            have hC := (editIterGo_spec ux uy uz m fc hm h dag _ hge1 hok hpathc _ hie).2
              dag1c rc rfl
            have hCok := hC.1
            have hCbak := hC.2.1
            have hCeb := hC.2.2.2.1
            have hCframe := hC.2.2.2.2.1
            have hB2 := hCok.baked_le
            have hieb : i < dag1c.mEditNodesBegin ∨ dag.mEditNodesBegin ≤ i := by
              rcases hival with ⟨hb1, hb2⟩ | ⟨he1, he2⟩
              · left; omega
              · right; exact he1
            have hstored : dag1c.getNode i = dag.getNode i := hCframe i hieb hinotin
            by_cases hskip : rc = (dag.getNode i).get (childIdAt ux uy uz h)
            · rw [if_neg (by rw [hstored, ← hskip]; simp), if_pos hskip]
              right; right; exact ⟨dag1c, i, rfl, rfl⟩
            · rw [if_pos (by rw [hstored]; exact fun he => hskip he.symm), if_neg hskip]
              cases hupd : dag1c.updateNodeChild i (childIdAt ux uy uz h) rc fc with
              | none => right; left; exact ⟨rfl, rfl⟩
              | some p =>
                obtain ⟨dag2, r2⟩ := p
                right; right; exact ⟨dag2, r2, rfl, rfl⟩
      · -- height 1: both sides write the material directly
        have h00 : h = 0 := by omega
        subst h00
        rw [if_neg hh2, if_neg (by omega : ¬(0 + 1 > 1))]
        cases hupd : dag.updateNodeChild i (childIdAt ux uy uz 0) m fc with
        | none => right; left; exact ⟨rfl, rfl⟩
        | some p =>
          obtain ⟨dag2, r2⟩ := p
          right; right; exact ⟨dag2, r2, rfl, rfl⟩



/-- The iterative setVoxel wrapper, rewritten through the loop simulation:
it is the subtree processing from the root followed by the unconditional
root recording. -/
theorem setVoxel_eq (v : Volume) (x y z : Int) (m : Nat) :
    v.setVoxel x y z m =
      (match editIterGo (signedToU x) (signedToU y) (signedToU z) m v.mTrackEdits
          rootHeight v.mDAG v.rootNodeIndex with
      | none => none
      | some .early => some v
      | some (.ok dag1 r) =>
        some (Volume.setRootNodeIndex { v with mDAG := dag1 } r)) := by
  unfold Volume.setVoxel
  dsimp only
  rw [svLoop_eq_editIterGo (signedToU x) (signedToU y) (signedToU z) m v.mTrackEdits
    rootHeight (by decide) (Nat.le_refl _) (2 * rootHeight + 2) v.mDAG
    (upd (fun _ => ⟨0, false⟩) rootHeight ⟨v.rootNodeIndex, false⟩) v.rootNodeIndex
    (upd_self _ _ _) (fun j hj1 hj2 => absurd hj1 (by omega)) (by omega)]
  cases heit : editIterGo (signedToU x) (signedToU y) (signedToU z) m v.mTrackEdits
      rootHeight v.mDAG v.rootNodeIndex with
  | none => rfl
  | some o =>
    cases o with
    | early => rfl
    | ok dag1 r =>
      dsimp only
      rw [ascend_finish _ _ _ _ _ _ _ _ _ (Nat.le_refl _)]

/-- A freshly constructed DAG is well-formed: empty regions, zeroed
storage. -/
theorem DagOK_fresh (c : Nat) (hc : MaterialCount ≤ c) : DagOK (Volume.fresh c).mDAG :=
  ⟨Nat.le_refl _, hc, Nat.le_refl _, fun j _ => rfl⟩



/-- C1.  On a well-formed state with capacity left, after a successful
setVoxel(x,y,z,m) the query voxel(x,y,z) returns m. -/
theorem setVoxel_voxel_roundtrip (v v1 : Volume) (x y z : Int) (m : Nat)
    (hm : m < MaterialCount)
    (hcur : v.mCurrentRoot < v.mRootNodeIndices.length)
    (hok : DagOK v.mDAG)
    (hpath : PathOK v.mDAG (signedToU x) (signedToU y) (signedToU z) rootHeight v.rootNodeIndex)
    (hset : v.setVoxel x y z m = some v1) :
    v1.voxel x y z = m := by
  rw [setVoxel_eq] at hset
  cases heit : editIterGo (signedToU x) (signedToU y) (signedToU z) m v.mTrackEdits
      rootHeight v.mDAG v.rootNodeIndex with
  | none => rw [heit] at hset; exact absurd hset (by simp)
  | some o =>
    rw [heit] at hset
    cases o with
    | early =>
      dsimp only at hset
      injection hset with h2
      subst h2
      exact (editIterGo_spec (signedToU x) (signedToU y) (signedToU z) m v.mTrackEdits hm
        rootHeight v.mDAG v.rootNodeIndex (by decide) hok hpath _ heit).1 rfl
    | ok dag1 r =>
      dsimp only at hset
      injection hset with h2
      subst h2
      have hC := (editIterGo_spec (signedToU x) (signedToU y) (signedToU z) m v.mTrackEdits hm
        rootHeight v.mDAG v.rootNodeIndex (by decide) hok hpath _ heit).2 dag1 r rfl
      have hCvox := hC.2.2.2.2.2.2.1
      unfold Volume.voxel
      rw [setRootNodeIndex_mDAG]
      rw [rootNodeIndex_setRootNodeIndex { v with mDAG := dag1 } r hcur]
      exact hCvox

def exEdit : Volume := (exFresh.setVoxel 0 0 0 1).getD exFresh

theorem setVoxel_voxel_roundtrip_witness : exEdit.voxel 0 0 0 = 1 :=
  setVoxel_voxel_roundtrip exFresh exEdit 0 0 0 1 (by decide) (by decide)
    (DagOK_fresh 70000 (by decide)) (PathOK_material _ _ _ _ _ _ (by decide)) (by decide)

/-- C4 (amended).  The recursive and the iterative setVoxel agree whenever
edits are untracked or the write actually changes the voxel; in the
remaining case (tracked no-op write) they differ in the history they
record. -/
theorem setVoxelRecursive_eq_setVoxel (v : Volume) (x y z : Int) (m : Nat)
    (hm : m < MaterialCount)
    (hcur : v.mCurrentRoot < v.mRootNodeIndices.length)
    (hok : DagOK v.mDAG)
    (hpath : PathOK v.mDAG (signedToU x) (signedToU y) (signedToU z) rootHeight v.rootNodeIndex)
    (hcase : v.mTrackEdits = false ∨ v.voxel x y z ≠ m) :
    v.setVoxelRecursive x y z m = v.setVoxel x y z m := by
  rw [setVoxel_eq]
  unfold Volume.setVoxelRecursive
  rcases editRec_eq_editIter (signedToU x) (signedToU y) (signedToU z) m v.mTrackEdits hm
      rootHeight v.mDAG v.rootNodeIndex (by decide) hok hpath with
    ⟨hie, hre, hv⟩ | ⟨hie, hre⟩ | ⟨dag1, r, hie, hre⟩
  · rw [hie, hre]
    dsimp only
    have htr : v.mTrackEdits = false := by
      rcases hcase with h | h
      · exact h
      · exact absurd hv h
    have h1 : Volume.setRootNodeIndex { v with mDAG := v.mDAG } v.rootNodeIndex = v := by
      have he : ({ v with mDAG := v.mDAG } : Volume) = v := rfl
      rw [he]
      unfold Volume.setRootNodeIndex
      rw [if_neg (by simp [htr])]
      have h2 : v.mRootNodeIndices.set v.mCurrentRoot v.rootNodeIndex = v.mRootNodeIndices :=
        set_getD_self v.mRootNodeIndices v.mCurrentRoot hcur
      rw [h2]
    rw [h1]
  · rw [hie, hre]
  · rw [hie, hre]

theorem setVoxelRecursive_eq_setVoxel_witness :
    exTracked.setVoxelRecursive 0 0 0 1 = exTracked.setVoxel 0 0 0 1 :=
  setVoxelRecursive_eq_setVoxel exTracked 0 0 0 1 (by decide) (by decide)
    (DagOK_fresh 70000 (by decide)) (PathOK_material _ _ _ _ _ _ (by decide))
    (Or.inr (by decide))




/-- C5.  With edit tracking on, a successful voxel-changing setVoxel can be
undone (restoring the previous value at the written coordinate) and then
redone (restoring the written value). -/
theorem undo_redo_roundtrip (v v1 : Volume) (x y z : Int) (m : Nat)
    (hm : m < MaterialCount)
    (htr : v.mTrackEdits = true)
    (hcur : v.mCurrentRoot < v.mRootNodeIndices.length)
    (hok : DagOK v.mDAG)
    (hpath : PathOK v.mDAG (signedToU x) (signedToU y) (signedToU z) rootHeight v.rootNodeIndex)
    (hchg : v.voxel x y z ≠ m)
    (hset : v.setVoxel x y z m = some v1) :
    (v1.undo).1 = true ∧ ((v1.undo).2).voxel x y z = v.voxel x y z ∧
    (((v1.undo).2).redo).1 = true ∧ ((((v1.undo).2).redo).2).voxel x y z = m := by
  rw [setVoxel_eq] at hset
  cases heit : editIterGo (signedToU x) (signedToU y) (signedToU z) m v.mTrackEdits
      rootHeight v.mDAG v.rootNodeIndex with
  | none => rw [heit] at hset; exact absurd hset (by simp)
  | some o =>
    rw [heit] at hset
    cases o with
    | early =>
      have hv := (editIterGo_spec (signedToU x) (signedToU y) (signedToU z) m v.mTrackEdits hm
        rootHeight v.mDAG v.rootNodeIndex (by decide) hok hpath _ heit).1 rfl
      exact absurd hv hchg
    | ok dag1 r =>
      dsimp only at hset
      injection hset with h2
      subst h2
      have hC := (editIterGo_spec (signedToU x) (signedToU y) (signedToU z) m v.mTrackEdits hm
        rootHeight v.mDAG v.rootNodeIndex (by decide) hok hpath _ heit).2 dag1 r rfl
      have hCok := hC.1
      have hCbak := hC.2.1
      have hCfc := hC.2.2.2.2.2.1
      have hCvox := hC.2.2.2.2.2.2.1
      have hd1b := hCok.baked_le
      have hframe : ∀ j ∈ pathList v.mDAG (signedToU x) (signedToU y) (signedToU z)
          rootHeight v.rootNodeIndex, dag1.getNode j = v.mDAG.getNode j := by
        intro j hj
        refine hCfc htr j ?_
        rcases hpath.2 j hj with ⟨hb1, hb2⟩ | ⟨he1, he2⟩
        · left; omega
        · right; exact he1
      have hv1 : Volume.setRootNodeIndex { v with mDAG := dag1 } r =
          Volume.mk dag1 v.mTrackEdits
            ((if v.mCurrentRoot + 1 ≥ v.mRootNodeIndices.length
              then padTo v.mRootNodeIndices (v.mCurrentRoot + 1 + 1)
              else v.mRootNodeIndices).set (v.mCurrentRoot + 1) r)
            (v.mCurrentRoot + 1) := by
        unfold Volume.setRootNodeIndex
        dsimp only
        rw [if_pos htr]
      have hbLen : v.mCurrentRoot + 1 + 1 ≤ (if v.mCurrentRoot + 1 ≥ v.mRootNodeIndices.length
          then padTo v.mRootNodeIndices (v.mCurrentRoot + 1 + 1)
          else v.mRootNodeIndices).length := by
        split
        · rw [padTo_length]; omega
        · rename_i hlt; omega
      have hslen : (((if v.mCurrentRoot + 1 ≥ v.mRootNodeIndices.length
          then padTo v.mRootNodeIndices (v.mCurrentRoot + 1 + 1)
          else v.mRootNodeIndices).set (v.mCurrentRoot + 1) r)).length =
          ((if v.mCurrentRoot + 1 ≥ v.mRootNodeIndices.length
          then padTo v.mRootNodeIndices (v.mCurrentRoot + 1 + 1)
          else v.mRootNodeIndices)).length := by simp
      have hget1 : (((if v.mCurrentRoot + 1 ≥ v.mRootNodeIndices.length
          then padTo v.mRootNodeIndices (v.mCurrentRoot + 1 + 1)
          else v.mRootNodeIndices).set (v.mCurrentRoot + 1) r)).getD (v.mCurrentRoot + 1) 0 = r :=
        getD_set_self _ _ _ (by omega)
      have hget0 : (((if v.mCurrentRoot + 1 ≥ v.mRootNodeIndices.length
          then padTo v.mRootNodeIndices (v.mCurrentRoot + 1 + 1)
          else v.mRootNodeIndices).set (v.mCurrentRoot + 1) r)).getD v.mCurrentRoot 0 =
          v.mRootNodeIndices.getD v.mCurrentRoot 0 := by
        rw [getD_set_ne _ _ _ _ (by omega)]
        split
        · exact padTo_getD_lt _ _ _ hcur
        · rfl
      rw [hv1]
      have hu : (Volume.mk dag1 v.mTrackEdits
            ((if v.mCurrentRoot + 1 ≥ v.mRootNodeIndices.length
              then padTo v.mRootNodeIndices (v.mCurrentRoot + 1 + 1)
              else v.mRootNodeIndices).set (v.mCurrentRoot + 1) r)
            (v.mCurrentRoot + 1)).undo =
          (true, Volume.mk dag1 v.mTrackEdits
            ((if v.mCurrentRoot + 1 ≥ v.mRootNodeIndices.length
              then padTo v.mRootNodeIndices (v.mCurrentRoot + 1 + 1)
              else v.mRootNodeIndices).set (v.mCurrentRoot + 1) r)
            v.mCurrentRoot) := by
        unfold Volume.undo
        dsimp only
        rw [if_pos (Nat.succ_pos _)]
        simp only [Nat.add_sub_cancel]
      rw [hu]
      refine ⟨rfl, ?_, ?_, ?_⟩
      · dsimp only
        unfold Volume.voxel Volume.rootNodeIndex
        dsimp only
        rw [hget0]
        exact (voxelFrom_congr (signedToU x) (signedToU y) (signedToU z) rootHeight v.mDAG dag1
          v.rootNodeIndex hframe).1
      · dsimp only
        unfold Volume.redo
        dsimp only
        rw [if_pos (by omega)]
      · dsimp only
        unfold Volume.redo
        dsimp only
        rw [if_pos (by omega)]
        dsimp only
        unfold Volume.voxel Volume.rootNodeIndex
        dsimp only
        rw [hget1]
        exact hCvox

def exEditT : Volume := (exTracked.setVoxel 0 0 0 1).getD exTracked

theorem undo_redo_roundtrip_witness :
    (exEditT.undo).1 = true ∧ ((exEditT.undo).2).voxel 0 0 0 = exTracked.voxel 0 0 0 ∧
    (((exEditT.undo).2).redo).1 = true ∧ ((((exEditT.undo).2).redo).2).voxel 0 0 0 = 1 :=
  undo_redo_roundtrip exTracked exEditT 0 0 0 1 (by decide) rfl (by decide)
    (DagOK_fresh 70000 (by decide)) (PathOK_material _ _ _ _ _ _ (by decide))
    (by decide) (by decide)


end Cubiquity
